import Mathlib

/-!
# train-tracker: a verification development of `main.go`

The program polls a search API for posts of one account, prints every post with
the configured line names highlighted and a relative age, and reports the
rate-limit headers of the response.

Go strings are modelled as lists of characters (`GoString`); every string the
program handles is assumed to be valid UTF-8, so that a byte-wise substring
search and a character-wise one agree.  Instants are exact integers of
nanoseconds since the Unix epoch, durations are `int64` nanoseconds.
-/

set_option maxRecDepth 8192

namespace TrainTracker

/-- A Go `string`, as its sequence of characters. -/
abbrev GoString := List Char

/-! ## Package `strings` -/

/-- Go `strings.HasPrefix(s, prefix)`. -/
def HasPrefix (s pre : GoString) : Bool :=
  pre.isPrefixOf s

/-- Go `strings.Index(s, substr)`: the index of the first instance of `substr`
in `s`; `none` stands for the result `-1`. -/
def Index : GoString → GoString → Option Nat
  | [], substr => if HasPrefix [] substr then some 0 else none
  | c :: s, substr =>
    if HasPrefix (c :: s) substr then some 0
    else (Index s substr).map (· + 1)

/-- The loop of Go `strings.Count` for a non-empty `substr`:
`i := Index(s, substr); if i == -1 return n; n++; s = s[i+len(substr):]`.
The first argument bounds the number of iterations. -/
def countLoop (substr : GoString) : Nat → GoString → Nat
  | 0, _ => 0
  | fuel + 1, s =>
    match Index s substr with
    | none => 0
    | some i => countLoop substr fuel (s.drop (i + substr.length)) + 1

/-- Go `strings.Count(s, substr)`: the number of non-overlapping instances of
`substr` in `s`; for an empty `substr`, one more than the number of characters
of `s`.  Every iteration of the loop removes at least one character, so
`s.length` iterations are enough (`countLoop_fuel`). -/
def Count (s substr : GoString) : Nat :=
  if substr.length = 0 then s.length + 1
  else countLoop substr s.length s

/-- The width consumed by `utf8.DecodeRuneInString` in characters: one, or zero
on the empty string. -/
def runeWidth : GoString → Nat
  | [] => 0
  | _ :: _ => 1

/-- The replacement loop of Go `strings.Replace`,
`for i := 0; i < n; i++ { ... }` followed by `b.WriteString(s[start:])`.
The first numeric argument is the number of iterations left (`n - i`), the
second is `i`, and the string is `s[start:]`; the result is what is written to
the builder from here on. -/
def replaceLoop (old new : GoString) : Nat → Nat → GoString → GoString
  | 0, _, rest => rest
  | left + 1, i, rest =>
    let j :=
      if old.length = 0 then (if i > 0 then runeWidth rest else 0)
      else (Index rest old).getD 0
    rest.take j ++ new ++ replaceLoop old new left (i + 1) (rest.drop (j + old.length))

/-- Go `strings.Replace(s, old, new, -1)`: every non-overlapping instance of
`old`, found from left to right, is replaced by `new`. -/
def Replace (s old new : GoString) : GoString :=
  if old = new then s
  else
    let m := Count s old
    if m = 0 then s
    else replaceLoop old new m 0 s

/-- Go `strings.Join(elems, sep)`. -/
def Join : List GoString → GoString → GoString
  | [], _ => []
  | [e], _ => e
  | e :: es, sep => e ++ es.foldl (fun b s => b ++ sep ++ s) []

/-! ## Package `color` -/

/-- The function `red = color.New(color.FgRed).SprintFunc()`: the text between
the escape sequence that switches the foreground colour to red (`pre`) and the
one that resets it (`suf`).  Both sequences are parameters; with colours
switched off both are empty. -/
def red (pre suf : GoString) (s : GoString) : GoString :=
  pre ++ s ++ suf

/-- The escape sequence `ESC[31m` (foreground red). -/
def fgRed : GoString := [Char.ofNat 27, '[', '3', '1', 'm']

/-- The escape sequence `ESC[0m` (reset). -/
def resetColor : GoString := [Char.ofNat 27, '[', '0', 'm']

/-! ## `highlightLines` -/

/-- The method `twitterFetch.highlightLines` for the keyword list `lines`:
`result = strings.Replace(result, line, red(line), -1)` for every line in
order. -/
def highlightLines (pre suf : GoString) (lines : List GoString) (s : GoString) : GoString :=
  lines.foldl (fun result line => Replace result line (red pre suf line)) s

/-! ## Machine integers -/

/-- The smallest `int64`. -/
def minInt64 : Int := -(2 ^ 63)

/-- The largest `int64`. -/
def maxInt64 : Int := 2 ^ 63 - 1

/-- The largest `uint64`. -/
def maxUint64 : Nat := 2 ^ 64 - 1

/-- The `int64` an integer wraps to (two's complement). -/
def wrap64 (x : Int) : Int :=
  (x + 2 ^ 63) % 2 ^ 64 - 2 ^ 63

/-- The conversion `uint64(x)`. -/
def toUint64 (x : Int) : Int :=
  x % 2 ^ 64

/-! ## Package `time` -/

/-- Go `time.Duration`: a number of nanoseconds, an `int64`.  The functions
below take and return it as the integer it is. -/
abbrev Duration := Int

/-- Go `time.Time`: an instant, in nanoseconds since the Unix epoch.  The
functions below take and return it as the integer it is. -/
abbrev Time := Int

def Nanosecond : Int := 1
def Millisecond : Int := 1000000
def Second : Int := 1000000000
def Minute : Int := 60 * Second
def Hour : Int := 60 * Minute

/-- The smallest `time.Duration`. -/
def minDuration : Int := minInt64

/-- The largest `time.Duration`. -/
def maxDuration : Int := maxInt64

/-- Go `lessThanHalf(x, y)`: `uint64(x)+uint64(x) < uint64(y)`. -/
def lessThanHalf (x y : Int) : Bool :=
  decide ((toUint64 x + toUint64 x) % 2 ^ 64 < toUint64 y)

/-- Go `Duration.Round(m)`: `d` rounded to the nearest multiple of `m`, halfway
values away from zero; the extreme duration when the result does not fit. -/
def Duration.Round (d m : Int) : Int :=
  if m ≤ 0 then d
  else
    let r := Int.tmod d m
    if d < 0 then
      let r := -r
      if lessThanHalf r m then wrap64 (d + r)
      else
        let d1 := wrap64 (d - m + r)
        if d1 < d then d1 else minDuration
    else
      if lessThanHalf r m then wrap64 (d - r)
      else
        let d1 := wrap64 (d + m - r)
        if d1 > d then d1 else maxDuration

/-- Go `Time.Sub(u)`: the duration `t - u`, or the extreme duration when the
difference does not fit a `Duration`. -/
def Time.Sub (t u : Int) : Int :=
  if t - u < minDuration then minDuration
  else if t - u > maxDuration then maxDuration
  else t - u

/-- Go `Time.Add(d)`. -/
def Time.Add (t : Int) (d : Int) : Int :=
  t + d

/-- Go `Time.After(u)`. -/
def Time.After (t u : Int) : Bool :=
  decide (t > u)

/-- The constant `unixToInternal` of package `time`: the seconds from the
first of January of the year 1 to the epoch. -/
def unixToInternal : Int := 62135596800

/-- Go `time.Unix(sec, 0)`: the instant `sec` seconds after the epoch.  The
value keeps its seconds as the `int64` `sec + unixToInternal`, counted from the
year 1, which wraps for the largest values of `sec`. -/
def timeUnix (sec : Int) : Int :=
  (wrap64 (sec + unixToInternal) - unixToInternal) * Second

/-- Go `time.Until(t)`, with the reading `now` of the clock. -/
def timeUntil (now t : Int) : Int :=
  Time.Sub t now

/-- Go `time.Since(t)`, with the reading `now` of the clock. -/
def timeSince (now t : Int) : Int :=
  Time.Sub now t

/-- A calendar date, as `Time.Date()` gives it. -/
structure Date where
  year : Int
  month : Nat
  day : Nat
deriving DecidableEq, Repr

/-- The digit `'0' + byte(u)` of a number below ten. -/
def utod (u : Nat) : Char :=
  Char.ofNat ('0'.toNat + u)

/-- Go `appendInt(b, x, width)` of package `time`: the decimal form of `x`,
padded with zeros to `width` digits, after a minus sign when negative; fields
of two and of four digits are written digit by digit. -/
def appendInt (x : Int) (width : Nat) : GoString :=
  let u := x.natAbs
  let sign : GoString := if x < 0 then ['-'] else []
  if width = 2 ∧ u < 100 then
    sign ++ [utod (u / 10), utod (u % 10)]
  else if width = 4 ∧ u < 10000 then
    sign ++ [utod (u / 1000), utod (u / 100 % 10), utod (u / 10 % 10), utod (u % 10)]
  else
    let digits := Nat.toDigits 10 u
    sign ++ List.replicate (width - digits.length) '0' ++ digits

/-- Go `Time.Format("2006-01-02")` of an instant whose date is `d`. -/
def formatDate (d : Date) : GoString :=
  appendInt d.year 4 ++ ['-'] ++ appendInt d.month 2 ++ ['-'] ++ appendInt d.day 2

/-! ## Package `strconv` -/

/-- The two kinds of `strconv.NumError`. -/
inductive NumError where
  | ErrSyntax
  | ErrRange
deriving DecidableEq, Repr

/-- The test `'0' <= c && c <= '9'` of `strconv.ParseUint`. -/
def isDigit (c : Char) : Bool :=
  decide ('0'.toNat ≤ c.toNat ∧ c.toNat ≤ '9'.toNat)

/-- The value `c - '0'` of a digit. -/
def digitVal (c : Char) : Nat :=
  c.toNat - '0'.toNat

/-- The digit loop of Go `strconv.ParseUint(s, 10, 64)`, with the value `n`
accumulated so far. -/
def parseUintLoop : GoString → Nat → Nat × Option NumError
  | [], n => (n, none)
  | c :: cs, n =>
    if isDigit c then
      let d := digitVal c
      if n ≥ maxUint64 / 10 + 1 then (maxUint64, some NumError.ErrRange)
      else
        let n10 := n * 10
        let n1 := (n10 + d) % 2 ^ 64
        if n1 < n10 ∨ n1 > maxUint64 then (maxUint64, some NumError.ErrRange)
        else parseUintLoop cs n1
    else (0, some NumError.ErrSyntax)

/-- Go `strconv.ParseUint(s, 10, 64)`. -/
def ParseUint (s : GoString) : Nat × Option NumError :=
  if s = [] then (0, some NumError.ErrSyntax)
  else parseUintLoop s 0

/-- The digits `strconv.ParseInt` hands to `ParseUint`: the string without its
leading sign, when it has one. -/
def unsignedPart : GoString → GoString
  | [] => []
  | c :: cs => if c = '+' then cs else if c = '-' then cs else c :: cs

/-- Go `strconv.ParseInt(s, 10, 64)`: the value and the error; on a range
error the value is the nearest `int64`, on a syntax error it is zero. -/
def ParseInt (s : GoString) : Int × Option NumError :=
  match s with
  | [] => (0, some NumError.ErrSyntax)
  | c :: cs =>
    let neg := decide (c = '-')
    let (un, err) := ParseUint (unsignedPart (c :: cs))
    if err = some NumError.ErrSyntax then (0, err)
    else if !neg && decide (un ≥ 2 ^ 63) then (maxInt64, some NumError.ErrRange)
    else if neg && decide (un > 2 ^ 63) then (minInt64, some NumError.ErrRange)
    else
      let n := wrap64 un
      (if neg then wrap64 (-n) else n, none)

/-- The number a string of decimal digits denotes. -/
def decimalValue (ds : GoString) : Nat :=
  ds.foldl (fun n c => n * 10 + digitVal c) 0

/-- The verb `%d` of package `fmt` on an `int64`. -/
def formatInt (n : Int) : GoString :=
  (if n < 0 then ['-'] else []) ++ Nat.toDigits 10 n.natAbs

/-! ## Package `net/http` -/

/-- Go `http.Header`: the values of every (canonical) key, none when the key
is missing. -/
abbrev Header := GoString → List GoString

/-- Go `Header.Get(key)` for a key in canonical form: the first value of the
key, the empty string when there is none. -/
def Header.Get (h : Header) (key : GoString) : GoString :=
  match h key with
  | [] => []
  | v :: _ => v

/-! ## The search client -/

/-- Modelled from the spec: the type `twitter.User`, of which the program reads
the name of the author. -/
structure User where
  Name : GoString
deriving DecidableEq, Repr

/-- Modelled from the spec: the type `twitter.Tweet`, a post with its
identifier, author, text and creation time; every post comes with its author.
`CreatedAt` is the instant `tweet.CreatedAtTime()` returns (the zero time of
Go when the field of the response does not parse, the error being dropped). -/
structure Tweet where
  ID : Int
  User : User
  Text : GoString
  CreatedAt : Time
deriving DecidableEq, Repr

/-- Modelled from the spec: the type `twitter.SearchMetadata`. -/
structure SearchMetadata where
  MaxID : Int
deriving DecidableEq, Repr

/-- Modelled from the spec: the type `twitter.Search`, the body of a search
response. -/
structure Search where
  Statuses : List Tweet
  Metadata : SearchMetadata
deriving DecidableEq, Repr

/-- Modelled from the spec: the type `twitter.SearchTweetParams`, with the
three fields the program sets. -/
structure SearchTweetParams where
  Query : GoString
  ResultType : GoString
  SinceID : Int
deriving DecidableEq, Repr

/-- One call of `twitterClient.Search.Tweets`: from the request to either the
error or the body and the headers of the response. -/
abbrev SearchCall := SearchTweetParams → Except GoString (Search × Header)

/-! ## The program -/

/-- What the program takes from its surroundings: the two colour sequences of
`red`, the rendering `durafmt.Parse(d).String()` of a duration, the successive
readings of `time.Now()` and the calendar date of an instant in the local time
zone. -/
structure Env where
  pre : GoString
  suf : GoString
  render : Duration → GoString
  clock : Nat → Time
  date : Time → Date

/-- The struct `twitterFetch`; the client is passed to `fetch` call by call. -/
structure twitterFetch where
  sinceID : Int
  lines : List GoString
deriving DecidableEq, Repr

/-- The duration `time.Since(tweetTime).Round(tweetTimeAgoRouding)` of
`timeAgo`: `now1` is the reading of the clock in the test, `now2` the one in
`time.Since`. -/
def timeAgoDuration (now1 now2 : Int) (tweet : Tweet) : Int :=
  let tweetTime := tweet.CreatedAt
  let tweetTimeAgoRouding :=
    if Time.After now1 (Time.Add tweetTime (-3 * Hour)) then Hour else Minute
  Duration.Round (timeSince now2 tweetTime) tweetTimeAgoRouding

/-- The function `timeAgo`. -/
def timeAgo (render : Int → GoString) (now1 now2 : Int) (tweet : Tweet) : GoString :=
  render (timeAgoDuration now1 now2 tweet)

/-- The value `resetDuration` of `rateLimitInfo`. -/
def resetDuration (now : Int) (h : Header) : Int :=
  let resetTimeInt := (ParseInt (h.Get "X-Rate-Limit-Reset".toList)).1
  let resetTime := timeUnix resetTimeInt
  Duration.Round (timeUntil now resetTime) Second

/-- The function `rateLimitInfo`. -/
def rateLimitInfo (render : Int → GoString) (now : Int) (h : Header) : GoString :=
  let resetDurationPretty := render (resetDuration now h)
  let resetLimitRemaining := (ParseInt (h.Get "X-Rate-Limit-Remaining".toList)).1
  let resetLimitLimit := (ParseInt (h.Get "X-Rate-Limit-Limit".toList)).1
  "rate limit: ".toList ++ formatInt resetLimitRemaining ++ "/".toList
    ++ formatInt resetLimitLimit ++ " api calls remaining for the next ".toList
    ++ resetDurationPretty

/-- The request `fetch` builds. -/
def searchParams (f : twitterFetch) (sinceDate : GoString) : SearchTweetParams :=
  { Query := "from:metrolink since:".toList ++ sinceDate ++ " ".toList
      ++ Join f.lines " OR ".toList
    ResultType := "recent".toList
    SinceID := f.sinceID }

/-- One entry of the loop over `search.Statuses`:
`fmt.Printf("@%s tweeted %s ago:\n%s\n\n", ...)`. -/
def tweetEntry (env : Env) (f : twitterFetch) (tick : Nat) (tweet : Tweet) : GoString :=
  "@".toList ++ tweet.User.Name ++ " tweeted ".toList
    ++ timeAgo env.render (env.clock tick) (env.clock (tick + 1)) tweet
    ++ " ago:\n".toList ++ highlightLines env.pre env.suf f.lines tweet.Text ++ "\n\n".toList

/-- The loop `for _, tweet := range search.Statuses`: what it prints, one item
per post; post number `k` reads the clock at `tick + 2 * k` and the reading
after. -/
def printTweets (env : Env) (f : twitterFetch) : Nat → List Tweet → List GoString
  | _, [] => []
  | tick, tweet :: rest => tweetEntry env f tick tweet :: printTweets env f (tick + 2) rest

/-- What a call of `fetch` leaves behind: the struct, the number of clock
readings taken so far, the request sent, what was printed (one item per call of
a print function) and the error returned (`none` for `nil`). -/
structure FetchResult where
  state : twitterFetch
  tick : Nat
  request : SearchTweetParams
  stdout : List GoString
  err : Option GoString

/-- The method `twitterFetch.fetch`, from the reading number `tick` of the
clock on. -/
def fetch (env : Env) (call : SearchCall) (tick : Nat) (f : twitterFetch) : FetchResult :=
  let sinceDate := formatDate (env.date (env.clock tick))
  let params := searchParams f sinceDate
  match call params with
  | Except.error err =>
    { state := f, tick := tick + 1, request := params, stdout := [],
      err := some ("error when searching: ".toList ++ err) }
  | Except.ok (search, resp) =>
    let out1 := if search.Statuses.length = 0 then ["no tweets\n".toList] else []
    let out2 := printTweets env f (tick + 1) search.Statuses
    let tick2 := tick + 1 + 2 * search.Statuses.length
    { state := { f with sinceID := search.Metadata.MaxID }
      tick := tick2 + 1
      request := params
      stdout := out1 ++ out2 ++ [rateLimitInfo env.render (env.clock tick2) resp ++ "\n".toList]
      err := none }

/-- The struct `config`. -/
structure config where
  TwitterConsumerKey : GoString
  TwitterConsumerSecretKey : GoString
  TwitterToken : GoString
  TwitterTokenSecret : GoString
  Lines : List GoString
deriving DecidableEq, Repr

/-- What a run of `main` leaves behind: what was printed, the requests sent, in
order, and the number of calls of `fetch`. -/
structure MainResult where
  stdout : List GoString
  requests : List SearchTweetParams
  fetches : Nat

/-- The loop `for { err := fetch.fetch(); ...; time.Sleep(fetchSleepDuration) }`
of `main`, for as many iterations as there are answers of the search
endpoint in `calls`. -/
def mainLoop (env : Env) : List SearchCall → Nat → twitterFetch → MainResult
  | [], _, _ => { stdout := [], requests := [], fetches := 0 }
  | call :: calls, tick, f =>
    let r := fetch env call tick f
    let out :=
      match r.err with
      | some err => r.stdout ++ ["failed to fetch: ".toList ++ err]
      | none => r.stdout
    let rest := mainLoop env calls r.tick r.state
    { stdout := out ++ rest.stdout, requests := r.request :: rest.requests,
      fetches := rest.fetches + 1 }

/-- The function `main`: `parsed` is the outcome of `env.Parse(&cfg)`,
`goSyntax` the rendering of the verb `%#v`, and `calls` the answers of the
search endpoint to the successive polls (the loop never ends; the run is
followed for `calls.length` iterations). -/
def main (env : Env) (goSyntax : config → GoString) (parsed : Except GoString config)
    (calls : List SearchCall) : MainResult :=
  let out0 := ["loading configs\n".toList]
  match parsed with
  | Except.error _ =>
    -- `fmt.Errorf("failed to load configs: %s", err)` builds an error value and drops it
    { stdout := out0, requests := [], fetches := 0 }
  | Except.ok cfg =>
    let out1 := ["configs loaded: ".toList ++ goSyntax cfg ++ "\n".toList]
    let f : twitterFetch := { sinceID := 0, lines := cfg.Lines }
    let r := mainLoop env calls 0 f
    { r with stdout := out0 ++ out1 ++ r.stdout }

/-- The states of the struct after each of a sequence of polls. -/
def pollStates (env : Env) : List SearchCall → Nat → twitterFetch → List twitterFetch
  | [], _, _ => []
  | call :: calls, tick, f =>
    let r := fetch env call tick f
    r.state :: pollStates env calls r.tick r.state

/-- Along a sequence of polls from the struct `f`: every successful response
carries a `Metadata.MaxID` at least as large as the `SinceID` of the request
that was sent for it. -/
def lowerBoundKept (env : Env) : List SearchCall → Nat → twitterFetch → Bool
  | [], _, _ => true
  | call :: calls, tick, f =>
    let r := fetch env call tick f
    (match call r.request with
      | Except.ok (search, _) => decide (r.request.SinceID ≤ search.Metadata.MaxID)
      | Except.error _ => true)
    && lowerBoundKept env calls r.tick r.state

/-! ## What highlighting one keyword means -/

/-- The text `out` is the text `s` with the instances of the non-empty keyword
`old` replaced by `new`, taken from left to right without overlap: either `old`
does not occur in `s` and `out` is `s`, or `s` is `a ++ old ++ rest` where the
instance after `a` is the first one (`old` occurs nowhere in `a` followed by all
but the last character of `old`), `out` is `a ++ new ++ out'`, and `out'` is
`rest` treated the same way.  Nothing else of `s` is added, removed or
altered. -/
inductive Wrapped (old new : GoString) : GoString → GoString → Prop where
  | done (s : GoString) : ¬ old <:+: s → Wrapped old new s s
  | step (a rest out : GoString) : ¬ old <:+: a ++ old.dropLast →
      Wrapped old new rest out → Wrapped old new (a ++ old ++ rest) (a ++ new ++ out)

/-! ## Concrete surroundings for the examples -/

/-- Surroundings for the examples: colours on, a duration rendered as its
number of nanoseconds, a clock that stands still at the instant `now`, and the
date 2024-03-07. -/
def exampleEnv (now : Int) : Env :=
  { pre := fgRed, suf := resetColor, render := formatInt,
    clock := fun _ => now, date := fun _ => ⟨2024, 3, 7⟩ }

/-- A response without headers whose body holds the posts `statuses` and the
metadata field `max_id = maxID`. -/
def okCall (statuses : List Tweet) (maxID : Int) : SearchCall :=
  fun _ => Except.ok (⟨statuses, ⟨maxID⟩⟩, fun _ => [])

/-- A search request that fails with the error `e`. -/
def failCall (e : GoString) : SearchCall :=
  fun _ => Except.error e

/-- The three rate-limit headers with the values given. -/
def rateHeaders (remaining limit reset : GoString) : Header :=
  fun key =>
    if key = "X-Rate-Limit-Remaining".toList then [remaining]
    else if key = "X-Rate-Limit-Limit".toList then [limit]
    else if key = "X-Rate-Limit-Reset".toList then [reset]
    else []

/-- A post with identifier `id`, created at the instant `t`. -/
def examplePost (id : Int) (t : Int) : Tweet :=
  { ID := id, User := ⟨"Metrolink".toList⟩, Text := "91 Line delayed".toList, CreatedAt := t }

/-! ## `highlightLines` -/

theorem HasPrefix_iff (s pre : GoString) : HasPrefix s pre = true ↔ pre <+: s := by
  unfold HasPrefix
  exact List.isPrefixOf_iff_prefix

theorem not_infix_dropLast (old : GoString) (h : old ≠ []) : ¬ old <:+: old.dropLast := by
  intro hin
  have hl := hin.length_le
  rw [List.length_dropLast] at hl
  have : 0 < old.length := List.length_pos.mpr h
  omega

/-- When `strings.Index` finds nothing, there is no instance. -/
theorem Index_none (old : GoString) (s : GoString) (h : Index s old = none) : ¬ old <:+: s := by
  induction s with
  | nil =>
    intro hin
    have hold : old = [] := List.eq_nil_of_infix_nil hin
    rw [hold] at h
    simp [Index, HasPrefix] at h
  | cons c s ih =>
    unfold Index at h
    by_cases hp : HasPrefix (c :: s) old = true
    · rw [if_pos hp] at h
      exact absurd h (by simp)
    · rw [if_neg hp] at h
      have hs : Index s old = none := by
        cases hi : Index s old with
        | none => rfl
        | some j => rw [hi] at h; simp at h
      intro hin
      rcases List.infix_cons_iff.mp hin with hpre | hin2
      · exact hp ((HasPrefix_iff _ _).mpr hpre)
      · exact ih hs hin2

/-- What `strings.Index` finds is the first instance. -/
theorem Index_some (old : GoString) (hold : old ≠ []) (s : GoString) (j : Nat)
    (h : Index s old = some j) :
    ∃ a rest, s = a ++ old ++ rest ∧ a.length = j ∧ ¬ old <:+: a ++ old.dropLast := by
  induction s generalizing j with
  | nil =>
    unfold Index at h
    have hp : ¬ (HasPrefix [] old = true) := by
      intro hp
      exact hold (List.prefix_nil.mp ((HasPrefix_iff _ _).mp hp))
    rw [if_neg hp] at h
    exact absurd h (by simp)
  | cons c s ih =>
    unfold Index at h
    by_cases hp : HasPrefix (c :: s) old = true
    · rw [if_pos hp] at h
      obtain ⟨rest, hrest⟩ := (HasPrefix_iff _ _).mp hp
      refine ⟨[], rest, ?_, ?_, ?_⟩
      · simp [hrest]
      · simpa using h
      · simpa using not_infix_dropLast old hold
    · rw [if_neg hp] at h
      cases hi : Index s old with
      | none => rw [hi] at h; simp at h
      | some j2 =>
        rw [hi] at h
        obtain ⟨a, rest, hs, hlen, hno⟩ := ih j2 hi
        refine ⟨c :: a, rest, ?_, ?_, ?_⟩
        · simp [hs]
        · simp only [Option.map_some', Option.some.injEq] at h
          simp [hlen, h]
        · intro hin
          rw [List.cons_append] at hin
          rcases List.infix_cons_iff.mp hin with hpre | hin2
          · apply hp
            rw [HasPrefix_iff]
            refine hpre.trans ?_
            rw [hs]
            refine ⟨[old.getLast hold] ++ rest, ?_⟩
            have hd := List.dropLast_append_getLast hold
            calc c :: (a ++ old.dropLast) ++ ([old.getLast hold] ++ rest)
                = c :: (a ++ (old.dropLast ++ [old.getLast hold]) ++ rest) := by simp
              _ = c :: (a ++ old ++ rest) := by rw [hd]
          · exact hno hin2

/-- The loop of `strings.Count` gives the same number whatever the bound on
its iterations, once the bound is the length of the string or more. -/
theorem countLoop_fuel (old : GoString) (hold : old ≠ []) (fuel1 fuel2 : Nat) (s : GoString)
    (h1 : s.length ≤ fuel1) (h2 : s.length ≤ fuel2) :
    countLoop old fuel1 s = countLoop old fuel2 s := by
  induction fuel1 generalizing fuel2 s with
  | zero =>
    have hs : s = [] := List.length_eq_zero.mp (Nat.le_zero.mp h1)
    subst hs
    have hi : Index [] old = none := by
      unfold Index
      have hp : ¬ (HasPrefix [] old = true) := by
        intro hp
        exact hold (List.prefix_nil.mp ((HasPrefix_iff _ _).mp hp))
      rw [if_neg hp]
    cases fuel2 with
    | zero => rfl
    | succ f2 => simp [countLoop, hi]
  | succ f1 ih =>
    cases fuel2 with
    | zero =>
      have hs : s = [] := List.length_eq_zero.mp (Nat.le_zero.mp h2)
      subst hs
      have hi : Index [] old = none := by
        unfold Index
        have hp : ¬ (HasPrefix [] old = true) := by
          intro hp
          exact hold (List.prefix_nil.mp ((HasPrefix_iff _ _).mp hp))
        rw [if_neg hp]
      simp [countLoop, hi]
    | succ f2 =>
      cases hi : Index s old with
      | none => simp [countLoop, hi]
      | some j =>
        have hpos : 0 < old.length := List.length_pos.mpr hold
        have hlen : (s.drop (j + old.length)).length ≤ s.length - 1 := by
          rw [List.length_drop]; omega
        simp only [countLoop, hi]
        rw [ih f2 (s.drop (j + old.length)) (by omega) (by omega)]

/-- The loop of `strings.Replace`, run as many times as `strings.Count` says,
replaces the instances of a non-empty `old` from left to right and writes the
rest as it is; every `strings.Index` in it finds an instance. -/
theorem replaceLoop_wrapped (old new : GoString) (hold : old ≠ []) (fuel : Nat) (s : GoString)
    (i : Nat) (h : s.length ≤ fuel) :
    Wrapped old new s (replaceLoop old new (countLoop old fuel s) i s) := by
  have hpos : 0 < old.length := List.length_pos.mpr hold
  have hne : ¬ (old.length = 0) := by omega
  induction fuel generalizing s i with
  | zero =>
    have hs : s = [] := List.length_eq_zero.mp (Nat.le_zero.mp h)
    subst hs
    simp only [countLoop, replaceLoop]
    apply Wrapped.done
    intro hin
    exact hold (List.eq_nil_of_infix_nil hin)
  | succ fuel ih =>
    cases hi : Index s old with
    | none =>
      simp only [countLoop, hi, replaceLoop]
      exact Wrapped.done s (Index_none old s hi)
    | some j =>
      obtain ⟨a, rest, hs, hlen, hno⟩ := Index_some old hold s j hi
      have htake : s.take j = a := by
        rw [hs, ← hlen, List.append_assoc, List.take_left]
      have hdrop : s.drop (j + old.length) = rest := by
        rw [hs, ← hlen, ← List.length_append, List.drop_left]
      have hrest : rest.length ≤ fuel := by
        have := congrArg List.length hs
        simp only [List.length_append] at this
        omega
      simp only [countLoop, hi, replaceLoop, if_neg hne, Option.getD_some, htake, hdrop]
      have hw := ih rest (i + 1) hrest
      have hstep := Wrapped.step a rest _ hno hw
      rw [← hs] at hstep
      exact hstep

theorem Wrapped_self (old new : GoString) (s out : GoString) (h : Wrapped old new s out) :
    Wrapped old old s s := by
  induction h with
  | done s hno => exact Wrapped.done s hno
  | step a rest out hno _ ih => exact Wrapped.step a rest rest hno ih

/-- The function `strings.Replace(s, old, new, -1)` for a non-empty `old`. -/
theorem Replace_wrapped (s old new : GoString) (hold : old ≠ []) :
    Wrapped old new s (Replace s old new) := by
  have hpos : 0 < old.length := List.length_pos.mpr hold
  have hne : ¬ (old.length = 0) := by omega
  have hw := replaceLoop_wrapped old new hold s.length s 0 (Nat.le_refl _)
  unfold Replace
  by_cases heq : old = new
  · rw [if_pos heq]
    have := Wrapped_self old new s _ hw
    rw [heq] at this ⊢
    exact this
  · rw [if_neg heq]
    simp only [Count, if_neg hne]
    by_cases hm : countLoop old s.length s = 0
    · rw [if_pos hm]
      rw [hm] at hw
      simpa [replaceLoop] using hw
    · rw [if_neg hm]
      exact hw

/-- The text after the replacements is determined by the text before. -/
theorem Wrapped_unique (old new : GoString) (hold : old ≠ []) (s o1 o2 : GoString)
    (h1 : Wrapped old new s o1) (h2 : Wrapped old new s o2) : o1 = o2 := by
  induction h1 generalizing o2 with
  | done s hno =>
    cases h2 with
    | done _ _ => rfl
    | step a rest out _ _ => exact absurd (List.infix_append a old rest) hno
  | step a rest out hno hw ih =>
    generalize hs : a ++ old ++ rest = s at h2
    cases h2 with
    | done _ hno2 =>
      rw [← hs] at hno2
      exact absurd (List.infix_append a old rest) hno2
    | step a2 rest2 out2 hno2 hw2 =>
      have key : ∀ (x y rx ry : GoString), x ++ old ++ rx = y ++ old ++ ry →
          ¬ old <:+: y ++ old.dropLast → ¬ (x.length < y.length) := by
        intro x y rx ry hxy hny hlt
        apply hny
        have hpx : x ++ old <+: x ++ old ++ rx := List.prefix_append _ _
        have hpy : y ++ old.dropLast <+: x ++ old ++ rx := by
          rw [hxy]
          refine ⟨[old.getLast hold] ++ ry, ?_⟩
          have hd := List.dropLast_append_getLast hold
          calc y ++ old.dropLast ++ ([old.getLast hold] ++ ry)
              = y ++ (old.dropLast ++ [old.getLast hold]) ++ ry := by simp
            _ = y ++ old ++ ry := by rw [hd]
        have hle : (x ++ old).length ≤ (y ++ old.dropLast).length := by
          simp only [List.length_append, List.length_dropLast]
          have : 0 < old.length := List.length_pos.mpr hold
          omega
        have hpre := List.prefix_of_prefix_length_le hpx hpy hle
        exact (List.infix_append x old []).trans (by simpa using hpre.isInfix)
      have hlen : a.length = a2.length := by
        have k1 := key a a2 rest rest2 hs hno2
        have k2 := key a2 a rest2 rest hs.symm hno
        omega
      have hs2 : a ++ (old ++ rest) = a2 ++ (old ++ rest2) := by
        simpa [List.append_assoc] using hs
      have ha : a = a2 := List.append_inj_left hs2 hlen
      subst ha
      have hr : rest = rest2 := by
        have := List.append_cancel_left hs2
        exact List.append_cancel_left this
      subst hr
      rw [ih out2 hw2]

/-- The function `strings.Replace(s, "", new, -1)`: `new` before every
character and at the end. -/
theorem Replace_empty (s new : GoString) (hnew : new ≠ []) :
    Replace s [] new = new ++ s.flatMap (fun c => c :: new) := by
  have hloop : ∀ (t : GoString) (i : Nat), 0 < i →
      replaceLoop [] new t.length i t = t.flatMap (fun c => c :: new) := by
    intro t
    induction t with
    | nil => intro i _; rfl
    | cons c t ih =>
      intro i hi
      simp only [List.length_cons, replaceLoop, List.length_nil, if_true, hi, runeWidth,
        Nat.add_zero, List.take_succ_cons, List.take_zero, List.drop_succ_cons, List.drop_zero]
      rw [ih (i + 1) (by omega)]
      simp [List.flatMap_cons]
  unfold Replace
  have hne : ¬ (([] : GoString) = new) := fun h => hnew h.symm
  rw [if_neg hne]
  simp only [Count, List.length_nil, if_true]
  have hm : ¬ (s.length + 1 = 0) := by omega
  rw [if_neg hm]
  simp only [replaceLoop, List.length_nil, if_true, Nat.lt_irrefl, if_false, List.take_zero,
    Nat.add_zero, List.drop_zero, List.nil_append]
  rw [hloop s 1 (by omega)]

theorem Wrapped_infix (old new : GoString) (s out : GoString) (h : Wrapped old new s out)
    (hin : old <:+: s) : new <:+: out := by
  cases h with
  | done _ hno => exact absurd hin hno
  | step a rest out2 _ _ => exact List.infix_append a new out2

/-- C1 (as amended): `highlightLines` takes the keywords in their configured
order; the step of a non-empty keyword `k` replaces, in the text the keywords
before it have produced (their markers included), every instance of `k` found
from left to right without overlap by red prefix + `k` + reset suffix and
leaves every other character of that text as it is (`Wrapped`, which
determines the result); so a keyword that occurs in that text appears wrapped
right after its step, and a text without it is left unchanged.  With an empty
keyword list the text is returned as it is; an empty keyword puts the two
markers before every character and at the end. -/
theorem highlightLines_wraps_in_turn (pre suf : GoString) (L : List GoString) (k T : GoString)
    (hk : k ≠ []) :
    highlightLines pre suf [] T = T ∧
      Wrapped k (pre ++ k ++ suf) T (highlightLines pre suf [k] T) ∧
      Wrapped k (pre ++ k ++ suf) (highlightLines pre suf L T)
        (highlightLines pre suf (L ++ [k]) T) ∧
      (∀ out, Wrapped k (pre ++ k ++ suf) (highlightLines pre suf L T) out →
        out = highlightLines pre suf (L ++ [k]) T) ∧
      (k <:+: highlightLines pre suf L T →
        pre ++ k ++ suf <:+: highlightLines pre suf (L ++ [k]) T) ∧
      (¬ k <:+: highlightLines pre suf L T →
        highlightLines pre suf (L ++ [k]) T = highlightLines pre suf L T) ∧
      (pre ++ suf ≠ [] →
        highlightLines pre suf (L ++ [[]]) T
          = (pre ++ suf) ++ (highlightLines pre suf L T).flatMap (fun c => c :: (pre ++ suf))) := by
  have hstep : ∀ (x : GoString), highlightLines pre suf (L ++ [x]) T
      = Replace (highlightLines pre suf L T) x (pre ++ x ++ suf) := by
    intro x
    simp only [highlightLines, List.foldl_append, List.foldl_cons, List.foldl_nil, red]
  have hw : Wrapped k (pre ++ k ++ suf) (highlightLines pre suf L T)
      (highlightLines pre suf (L ++ [k]) T) := by
    rw [hstep]
    exact Replace_wrapped _ k _ hk
  refine ⟨rfl, ?_, hw, ?_, ?_, ?_, ?_⟩
  · have h1 : highlightLines pre suf [k] T = Replace T k (pre ++ k ++ suf) := by
      simp only [highlightLines, List.foldl_cons, List.foldl_nil, red]
    rw [h1]
    exact Replace_wrapped _ k _ hk
  · intro out hout
    exact Wrapped_unique k _ hk _ _ _ hout hw
  · intro hin
    exact Wrapped_infix k _ _ _ hw hin
  · intro hno
    exact (Wrapped_unique k _ hk _ _ _ (Wrapped.done _ hno) hw).symm
  · intro hne
    rw [hstep]
    have h2 : pre ++ [] ++ suf = pre ++ suf := by simp
    rw [h2]
    exact Replace_empty _ _ hne

theorem highlightLines_wraps_in_turn_witness :
    Wrapped "91 Line".toList (fgRed ++ "91 Line".toList ++ resetColor)
        "91 Line delayed, 91 Line 20 min".toList
        (highlightLines fgRed resetColor ["91 Line".toList] "91 Line delayed, 91 Line 20 min".toList) ∧
      highlightLines fgRed resetColor ["91 Line".toList] "91 Line delayed, 91 Line 20 min".toList
        = fgRed ++ "91 Line".toList ++ resetColor ++ " delayed, ".toList
            ++ fgRed ++ "91 Line".toList ++ resetColor ++ " 20 min".toList :=
  ⟨(highlightLines_wraps_in_turn fgRed resetColor [] "91 Line".toList
      "91 Line delayed, 91 Line 20 min".toList (by decide)).2.1, by decide⟩

/-- C1 (counterexample): with the keywords "ab" and "abc", either way round,
and the post text "abc", the keyword "abc" is a substring of the text and the
output does not hold it wrapped: it is the wrapped "ab" followed by "c" for
the list "ab", "abc", and a wrapped "ab" inside the markers of "abc" for the
list "abc", "ab". -/
theorem highlightLines_keyword_not_wrapped :
    ("abc".toList ∈ ["ab".toList, "abc".toList] ∧ "abc".toList <:+: "abc".toList) ∧
      highlightLines fgRed resetColor ["ab".toList, "abc".toList] "abc".toList
        = fgRed ++ "ab".toList ++ resetColor ++ "c".toList ∧
      ¬ (red fgRed resetColor "abc".toList <:+:
          highlightLines fgRed resetColor ["ab".toList, "abc".toList] "abc".toList) ∧
      highlightLines fgRed resetColor ["abc".toList, "ab".toList] "abc".toList
        = fgRed ++ fgRed ++ "ab".toList ++ resetColor ++ "c".toList ++ resetColor ∧
      ¬ (red fgRed resetColor "abc".toList <:+:
          highlightLines fgRed resetColor ["abc".toList, "ab".toList] "abc".toList) := by
  decide

/-! ## `fetch`: cursor, errors, output, request -/

theorem fetch_ok (env : Env) (call : SearchCall) (tick : Nat) (f : twitterFetch)
    (search : Search) (resp : Header)
    (h : call (searchParams f (formatDate (env.date (env.clock tick)))) = Except.ok (search, resp)) :
    fetch env call tick f =
      { state := { f with sinceID := search.Metadata.MaxID }
        tick := tick + 1 + 2 * search.Statuses.length + 1
        request := searchParams f (formatDate (env.date (env.clock tick)))
        stdout := (if search.Statuses.length = 0 then ["no tweets\n".toList] else [])
          ++ printTweets env f (tick + 1) search.Statuses
          ++ [rateLimitInfo env.render (env.clock (tick + 1 + 2 * search.Statuses.length)) resp
                ++ "\n".toList]
        err := none } := by
  simp only [fetch, h]

theorem fetch_error (env : Env) (call : SearchCall) (tick : Nat) (f : twitterFetch)
    (e : GoString)
    (h : call (searchParams f (formatDate (env.date (env.clock tick)))) = Except.error e) :
    fetch env call tick f =
      { state := f, tick := tick + 1
        request := searchParams f (formatDate (env.date (env.clock tick)))
        stdout := [], err := some ("error when searching: ".toList ++ e) } := by
  simp only [fetch, h]

/-- C2 (as amended): after a successful search `fetch` returns `nil` and
`sinceID` is the field `Metadata.MaxID` of the response, whatever the result
set holds and whatever `sinceID` was before. -/
theorem fetch_sinceID_eq_metadata_maxID (env : Env) (call : SearchCall) (tick : Nat)
    (f : twitterFetch) (search : Search) (resp : Header)
    (h : call (searchParams f (formatDate (env.date (env.clock tick)))) = Except.ok (search, resp)) :
    (fetch env call tick f).err = none ∧
      (fetch env call tick f).state.sinceID = search.Metadata.MaxID := by
  rw [fetch_ok env call tick f search resp h]
  exact ⟨rfl, rfl⟩

theorem fetch_sinceID_eq_metadata_maxID_witness :
    okCall [examplePost 7 0] 9 (searchParams ⟨5, []⟩ (formatDate ((exampleEnv 0).date ((exampleEnv 0).clock 0))))
        = Except.ok (⟨[examplePost 7 0], ⟨9⟩⟩, fun _ => []) ∧
      (fetch (exampleEnv 0) (okCall [examplePost 7 0] 9) 0 ⟨5, []⟩).err = none ∧
      (fetch (exampleEnv 0) (okCall [examplePost 7 0] 9) 0 ⟨5, []⟩).state.sinceID = 9 :=
  ⟨rfl, fetch_sinceID_eq_metadata_maxID (exampleEnv 0) (okCall [examplePost 7 0] 9) 0 ⟨5, []⟩
    ⟨[examplePost 7 0], ⟨9⟩⟩ (fun _ => []) rfl⟩

/-- C2 (counterexample): with `sinceID = 5`, a successful response with an
empty result set and `max_id = 0` leaves `sinceID = 0`, not 5; and a
successful response whose only post has identifier 7 and whose `max_id` is 9
leaves `sinceID = 9`, not 7. -/
theorem fetch_sinceID_not_max_of_statuses :
    ((fetch (exampleEnv 0) (okCall [] 0) 0 ⟨5, []⟩).err = none ∧
      (fetch (exampleEnv 0) (okCall [] 0) 0 ⟨5, []⟩).state.sinceID = 0 ∧
      (fetch (exampleEnv 0) (okCall [] 0) 0 ⟨5, []⟩).state.sinceID ≠ 5) ∧
    ((fetch (exampleEnv 0) (okCall [examplePost 7 0] 9) 0 ⟨5, []⟩).err = none ∧
      ([examplePost 7 0].map Tweet.ID).max? = some 7 ∧
      (fetch (exampleEnv 0) (okCall [examplePost 7 0] 9) 0 ⟨5, []⟩).state.sinceID ≠ 7) := by
  decide

/-- C3 (as amended): over every finite sequence of polls in which each
successful response carries a `Metadata.MaxID` at least as large as the
`SinceID` of the request sent for it, the value of `sinceID` after each call
of `fetch` is greater than or equal to its value before that call (a failed
poll leaves it as it was); and only over such sequences. -/
theorem pollStates_sinceID_monotone (env : Env) (calls : List SearchCall) (tick : Nat)
    (f : twitterFetch) (h : lowerBoundKept env calls tick f = true) :
    List.Chain (fun a b => a.sinceID ≤ b.sinceID) f (pollStates env calls tick f) ∧
      (∀ (g : twitterFetch) (t : Nat),
        List.Chain (fun a b => a.sinceID ≤ b.sinceID) g (pollStates env calls t g) →
          lowerBoundKept env calls t g = true) := by
  constructor
  · induction calls generalizing tick f with
    | nil => exact List.Chain.nil
    | cons call calls ih =>
      cases hcall : call (searchParams f (formatDate (env.date (env.clock tick)))) with
      | error e =>
        have hf := fetch_error env call tick f e hcall
        simp only [lowerBoundKept, hf, hcall, Bool.true_and] at h
        simp only [pollStates, hf]
        exact List.Chain.cons (le_refl _) (ih _ _ h)
      | ok v =>
        obtain ⟨s, r⟩ := v
        have hf := fetch_ok env call tick f s r hcall
        simp only [lowerBoundKept, hf, hcall, Bool.and_eq_true, decide_eq_true_eq] at h
        simp only [pollStates, hf]
        exact List.Chain.cons h.1 (ih _ _ h.2)
  · clear h
    intro g t
    induction calls generalizing t g with
    | nil => intro _; rfl
    | cons call calls ih =>
      intro hc
      cases hcall : call (searchParams g (formatDate (env.date (env.clock t)))) with
      | error e =>
        have hf := fetch_error env call t g e hcall
        simp only [pollStates, hf] at hc
        simp only [lowerBoundKept, hf, hcall, Bool.true_and]
        cases hc with
        | cons _ hrest => exact ih _ _ hrest
      | ok v =>
        obtain ⟨s, r⟩ := v
        have hf := fetch_ok env call t g s r hcall
        simp only [pollStates, hf] at hc
        simp only [lowerBoundKept, hf, hcall, Bool.and_eq_true, decide_eq_true_eq]
        cases hc with
        | cons hhead hrest => exact ⟨hhead, ih _ _ hrest⟩

theorem pollStates_sinceID_monotone_witness :
    lowerBoundKept (exampleEnv 0)
        [okCall [] 5, failCall "timeout".toList, okCall [examplePost 7 0] 7] 0 ⟨0, []⟩ = true ∧
      (pollStates (exampleEnv 0)
        [okCall [] 5, failCall "timeout".toList, okCall [examplePost 7 0] 7] 0 ⟨0, []⟩).map
          twitterFetch.sinceID = [5, 5, 7] ∧
      List.Chain (fun a b => a.sinceID ≤ b.sinceID) (⟨0, []⟩ : twitterFetch)
        (pollStates (exampleEnv 0)
          [okCall [] 5, failCall "timeout".toList, okCall [examplePost 7 0] 7] 0 ⟨0, []⟩) :=
  ⟨by decide, by decide,
    (pollStates_sinceID_monotone (exampleEnv 0)
      [okCall [] 5, failCall "timeout".toList, okCall [examplePost 7 0] 7] 0 ⟨0, []⟩
      (by decide)).1⟩

/-- C3 (counterexample): from `sinceID = 0`, a successful poll with
`max_id = 5` followed by a successful poll with `max_id = 3` takes `sinceID`
to 5 and then down to 3. -/
theorem pollStates_sinceID_decreases :
    (pollStates (exampleEnv 0) [okCall [] 5, okCall [] 3] 0 ⟨0, []⟩).map twitterFetch.sinceID = [5, 3] ∧
      ¬ List.Chain (fun a b => a.sinceID ≤ b.sinceID) (⟨0, []⟩ : twitterFetch)
        (pollStates (exampleEnv 0) [okCall [] 5, okCall [] 3] 0 ⟨0, []⟩) := by
  have h : pollStates (exampleEnv 0) [okCall [] 5, okCall [] 3] 0 ⟨0, []⟩
      = [⟨5, []⟩, ⟨3, []⟩] := by decide
  rw [h]
  refine ⟨rfl, ?_⟩
  intro hc
  cases hc with
  | cons _ hc2 =>
    cases hc2 with
    | cons h53 _ => exact absurd h53 (by decide)

/-- C4: when the search request fails with the error `e`, `fetch` returns the
error "error when searching: " followed by `e`, leaves the struct (`sinceID`
and the keyword list) as it was and prints nothing. -/
theorem fetch_search_failure (env : Env) (call : SearchCall) (tick : Nat) (f : twitterFetch)
    (e : GoString)
    (h : call (searchParams f (formatDate (env.date (env.clock tick)))) = Except.error e) :
    (fetch env call tick f).err = some ("error when searching: ".toList ++ e) ∧
      (fetch env call tick f).state = f ∧
      (fetch env call tick f).state.sinceID = f.sinceID ∧
      (fetch env call tick f).state.lines = f.lines ∧
      (fetch env call tick f).stdout = [] := by
  rw [fetch_error env call tick f e h]
  exact ⟨rfl, rfl, rfl, rfl, rfl⟩

theorem fetch_search_failure_witness :
    failCall "timeout".toList
        (searchParams ⟨5, ["91 Line".toList]⟩
          (formatDate ((exampleEnv 0).date ((exampleEnv 0).clock 0)))) = Except.error "timeout".toList ∧
      (fetch (exampleEnv 0) (failCall "timeout".toList) 0 ⟨5, ["91 Line".toList]⟩).err
        = some "error when searching: timeout".toList ∧
      (fetch (exampleEnv 0) (failCall "timeout".toList) 0 ⟨5, ["91 Line".toList]⟩).state
        = ⟨5, ["91 Line".toList]⟩ ∧
      (fetch (exampleEnv 0) (failCall "timeout".toList) 0 ⟨5, ["91 Line".toList]⟩).stdout = [] :=
  have h := fetch_search_failure (exampleEnv 0) (failCall "timeout".toList) 0
    ⟨5, ["91 Line".toList]⟩ "timeout".toList rfl
  ⟨rfl, h.1, h.2.1, h.2.2.2.2⟩

/-- The items `printTweets` prints, by position in the result set. -/
theorem printTweets_eq_map (env : Env) (f : twitterFetch) (tick : Nat) (l : List Tweet) (n : Nat) :
    printTweets env f (tick + 2 * n) l
      = (l.enumFrom n).map (fun p => tweetEntry env f (tick + 2 * p.1) p.2) := by
  induction l generalizing n with
  | nil => rfl
  | cons t l ih =>
    have h := ih (n + 1)
    have e : tick + 2 * (n + 1) = tick + 2 * n + 2 := by ring
    rw [e] at h
    simp only [printTweets, List.enumFrom_cons, List.map_cons, h]

/-- C8: after a successful search, what `fetch` prints before the rate-limit
line is the single line "no tweets" when the response holds no post, and
otherwise one entry per post, in the order of the response, each
"@<author name> tweeted <time ago> ago:" followed by the highlighted text and
an empty line; the line "no tweets" is then not printed. -/
theorem fetch_success_output (env : Env) (call : SearchCall) (tick : Nat) (f : twitterFetch)
    (search : Search) (resp : Header)
    (h : call (searchParams f (formatDate (env.date (env.clock tick)))) = Except.ok (search, resp)) :
    (fetch env call tick f).stdout =
        (if search.Statuses = [] then ["no tweets\n".toList]
         else search.Statuses.enum.map (fun p =>
            "@".toList ++ p.2.User.Name ++ " tweeted ".toList
              ++ timeAgo env.render (env.clock (tick + 1 + 2 * p.1))
                  (env.clock (tick + 1 + 2 * p.1 + 1)) p.2
              ++ " ago:\n".toList ++ highlightLines env.pre env.suf f.lines p.2.Text
              ++ "\n\n".toList))
        ++ [rateLimitInfo env.render (env.clock (tick + 1 + 2 * search.Statuses.length)) resp
              ++ "\n".toList] ∧
      (fetch env call tick f).stdout.length = max 1 search.Statuses.length + 1 ∧
      (search.Statuses ≠ [] → "no tweets\n".toList ∉ (fetch env call tick f).stdout) := by
  have hp := printTweets_eq_map env f (tick + 1) search.Statuses 0
  simp only [Nat.mul_zero, Nat.add_zero] at hp
  have hout : (fetch env call tick f).stdout =
        (if search.Statuses = [] then ["no tweets\n".toList]
         else search.Statuses.enum.map (fun p => tweetEntry env f (tick + 1 + 2 * p.1) p.2))
        ++ [rateLimitInfo env.render (env.clock (tick + 1 + 2 * search.Statuses.length)) resp
              ++ "\n".toList] := by
    rw [fetch_ok env call tick f search resp h]
    simp only [hp, List.enum]
    cases hs : search.Statuses with
    | nil => simp
    | cons t l => simp
  refine ⟨hout, ?_, ?_⟩
  · rw [hout]
    cases hs : search.Statuses with
    | nil => simp
    | cons t l => simp [List.enum]
  · intro hne
    rw [hout, if_neg hne]
    simp only [List.mem_append, List.mem_map, List.mem_singleton, not_or, not_exists, not_and]
    constructor
    · intro p _ heq
      have := congrArg List.head? heq
      simp [tweetEntry] at this
    · intro heq
      have := congrArg List.head? heq
      simp [rateLimitInfo] at this

theorem fetch_success_output_witness :
    (fetch (exampleEnv (18000 * Second))
        (fun _ => Except.ok (⟨[examplePost 7 0, examplePost 3 (7200 * Second)], ⟨7⟩⟩,
          rateHeaders "42".toList "100".toList "18090".toList)) 0
        ⟨0, ["91 Line".toList]⟩).stdout =
      ["@Metrolink tweeted 18000000000000 ago:\n".toList ++ fgRed ++ "91 Line".toList
          ++ resetColor ++ " delayed\n\n".toList,
        "@Metrolink tweeted 10800000000000 ago:\n".toList ++ fgRed ++ "91 Line".toList
          ++ resetColor ++ " delayed\n\n".toList,
        "rate limit: 42/100 api calls remaining for the next 90000000000\n".toList] :=
  (fetch_success_output (exampleEnv (18000 * Second))
    (fun _ => Except.ok (⟨[examplePost 7 0, examplePost 3 (7200 * Second)], ⟨7⟩⟩,
      rateHeaders "42".toList "100".toList "18090".toList)) 0
    ⟨0, ["91 Line".toList]⟩ ⟨[examplePost 7 0, examplePost 3 (7200 * Second)], ⟨7⟩⟩
    (rateHeaders "42".toList "100".toList "18090".toList) rfl).1.trans (by decide)

/-- The decimal form `strings.Join` is compared with: the elements in their
order, with the separator between neighbours. -/
theorem Join_eq_intercalate (elems : List GoString) (sep : GoString) :
    Join elems sep = sep.intercalate elems := by
  have hfold : ∀ (es : List GoString) (b : GoString),
      es.foldl (fun b s => b ++ sep ++ s) b = b ++ (es.map (fun s => sep ++ s)).flatten := by
    intro es
    induction es with
    | nil => intro b; simp
    | cons e es ih =>
      intro b
      rw [List.foldl_cons, ih]
      simp [List.append_assoc]
  have hinter : ∀ (e : GoString) (es : List GoString),
      sep.intercalate (e :: es) = e ++ (es.map (fun s => sep ++ s)).flatten := by
    intro e es
    induction es generalizing e with
    | nil => simp [List.intercalate]
    | cons e2 es ih =>
      have h2 := ih e2
      simp only [List.intercalate, List.intersperse, List.flatten_cons] at h2 ⊢
      simp [h2]
  match elems with
  | [] => rfl
  | [e] => simp [Join, List.intercalate]
  | e :: e2 :: es =>
    rw [hinter]
    simp only [Join]
    rw [hfold]
    simp

/-- C9: the request `fetch` sends has the query "from:metrolink since:"
followed by the current date as `YYYY-MM-DD`, a space and the keywords joined
in their order by " OR ", the result type "recent" and the `SinceID` held
before the call; the keyword list is left as it was, and so is `sinceID` until
the answer is in (on a failure for good). -/
theorem fetch_request (env : Env) (call : SearchCall) (tick : Nat) (f : twitterFetch) :
    (fetch env call tick f).request =
        { Query := "from:metrolink since:".toList ++ formatDate (env.date (env.clock tick))
            ++ " ".toList ++ " OR ".toList.intercalate f.lines
          ResultType := "recent".toList
          SinceID := f.sinceID } ∧
      (fetch env call tick f).state.lines = f.lines ∧
      (∀ d : Date, 0 ≤ d.year ∧ d.year ≤ 9999 ∧ d.month ≤ 99 ∧ d.day ≤ 99 →
        formatDate d =
          [utod (d.year.natAbs / 1000), utod (d.year.natAbs / 100 % 10),
            utod (d.year.natAbs / 10 % 10), utod (d.year.natAbs % 10), '-',
            utod (d.month / 10), utod (d.month % 10), '-',
            utod (d.day / 10), utod (d.day % 10)]) := by
  refine ⟨?_, ?_, ?_⟩
  · cases hcall : call (searchParams f (formatDate (env.date (env.clock tick)))) with
    | error e =>
      rw [fetch_error env call tick f e hcall]
      simp only [searchParams, Join_eq_intercalate]
    | ok v =>
      obtain ⟨s, r⟩ := v
      rw [fetch_ok env call tick f s r hcall]
      simp only [searchParams, Join_eq_intercalate]
  · cases hcall : call (searchParams f (formatDate (env.date (env.clock tick)))) with
    | error e => rw [fetch_error env call tick f e hcall]
    | ok v =>
      obtain ⟨s, r⟩ := v
      rw [fetch_ok env call tick f s r hcall]
  · intro d hd
    obtain ⟨hy0, hy1, hm, hday⟩ := hd
    have hy : d.year.natAbs < 10000 := by omega
    have hyn : ¬ d.year < 0 := by omega
    have hm2 : (d.month : Int).natAbs = d.month := Int.natAbs_ofNat _
    have hd2 : (d.day : Int).natAbs = d.day := Int.natAbs_ofNat _
    have hmn : ¬ ((d.month : Int) < 0) := by omega
    have hdn : ¬ ((d.day : Int) < 0) := by omega
    have hm3 : d.month < 100 := by omega
    have hd3 : d.day < 100 := by omega
    simp [formatDate, appendInt, hy, hyn, hm2, hd2, hmn, hdn, hm3, hd3]

theorem fetch_request_witness :
    (fetch (exampleEnv 0) (okCall [] 9) 0 ⟨5, ["91 Line".toList, "OC Line".toList]⟩).request =
        { Query := "from:metrolink since:2024-03-07 91 Line OR OC Line".toList
          ResultType := "recent".toList
          SinceID := 5 } ∧
      formatDate ⟨2024, 3, 7⟩ = "2024-03-07".toList :=
  have h := fetch_request (exampleEnv 0) (okCall [] 9) 0 ⟨5, ["91 Line".toList, "OC Line".toList]⟩
  ⟨h.1.trans (by decide), (h.2.2 ⟨2024, 3, 7⟩ (by decide)).trans (by decide)⟩

/-! ## `main` -/

/-- The branch `if err != nil` of `main` (lines 34 to 37): after a failed
`env.Parse`, `main` has printed the line "loading configs" and nothing else
(the value of `fmt.Errorf` is dropped), and it returns without a request and
without a call of `fetch`. -/
theorem main_config_error (env : Env) (goSyntax : config → GoString) (e : GoString)
    (calls : List SearchCall) :
    (main env goSyntax (Except.error e) calls).stdout = ["loading configs\n".toList] ∧
      (main env goSyntax (Except.error e) calls).requests = [] ∧
      (main env goSyntax (Except.error e) calls).fetches = 0 :=
  ⟨rfl, rfl, rfl⟩

/-! ## `timeAgo` -/

theorem int_sub_sub_lt (x a b : Int) (h : 0 < a + b) : x - a - b < x := by
  omega

/-- For every post created less than three hours after the first reading of
the clock (every post of the past among them), `timeAgo` rounds to the hour. -/
theorem timeAgoDuration_of_not_future (now1 now2 : Int) (tweet : Tweet)
    (h : tweet.CreatedAt - 3 * Hour < now1) :
    timeAgoDuration now1 now2 tweet = Duration.Round (timeSince now2 tweet.CreatedAt) Hour := by
  have h2 : now1 > tweet.CreatedAt + -3 * Hour := by
    have : tweet.CreatedAt + -3 * Hour = tweet.CreatedAt - 3 * Hour := by ring
    rw [this]; exact h
  simp only [timeAgoDuration, Time.After, Time.Add, h2, decide_True, if_true]

/-- C5 (the code at the failing input): for a post created exactly two minutes
before now, `timeAgo` renders the duration zero (the age rounded to the hour),
not two minutes; a post created exactly five hours before now is rendered
as five hours. -/
theorem timeAgo_two_minutes_rounds_to_zero (render : Int → GoString) (now : Int)
    (id : Int) (user : User) (text : GoString) :
    timeAgo render now now ⟨id, user, text, now - 2 * Minute⟩ = render 0 ∧
      timeAgo render now now ⟨id, user, text, now - 5 * Hour⟩ = render (5 * Hour) := by
  have e2 : now - (now - 2 * Minute) = 2 * Minute := by ring
  have e5 : now - (now - 5 * Hour) = 5 * Hour := by ring
  constructor
  · rw [timeAgo, timeAgoDuration_of_not_future _ _ _ (by
      exact int_sub_sub_lt now (2 * Minute) (3 * Hour) (by decide))]
    simp only [timeSince, Time.Sub, e2]
    have : Duration.Round (2 * Minute) Hour = 0 := by decide
    simpa using congrArg render this
  · rw [timeAgo, timeAgoDuration_of_not_future _ _ _ (by
      exact int_sub_sub_lt now (5 * Hour) (3 * Hour) (by decide))]
    simp only [timeSince, Time.Sub, e5]
    have : Duration.Round (5 * Hour) Hour = 5 * Hour := by decide
    simpa using congrArg render this

/-! ## `rateLimitInfo` -/

theorem tmod_of_neg (d m : Int) (hd : d < 0) (hm : 0 < m) : Int.tmod d m = -((-d) % m) := by
  obtain ⟨k, rfl⟩ := Int.eq_negSucc_of_lt_zero hd
  obtain ⟨n, rfl⟩ := Int.eq_ofNat_of_zero_le (le_of_lt hm)
  simp only [Int.tmod, Int.neg_negSucc]
  rfl

theorem wrap64_of_range (x : Int) (h1 : -(2 ^ 63) ≤ x) (h2 : x ≤ 2 ^ 63 - 1) : wrap64 x = x := by
  unfold wrap64
  omega

theorem lessThanHalf_second (r : Int) (h0 : 0 ≤ r) (h1 : r < 1000000000) :
    lessThanHalf r 1000000000 = decide (2 * r < 1000000000) := by
  unfold lessThanHalf toUint64
  congr 1
  apply propext
  omega

/-- For a duration whose nearest whole second fits a `Duration`, rounding to
the second gives a whole number of seconds at most half a second away. -/
theorem Round_second_nearest (d : Int) (h1 : -9223372036499999999 ≤ d)
    (h2 : d ≤ 9223372036499999999) :
    ∃ k : Int, Duration.Round d Second = k * 1000000000 ∧
      -1000000000 ≤ 2 * (d - Duration.Round d Second) ∧
      2 * (d - Duration.Round d Second) ≤ 1000000000 := by
  have hm : ¬ ((1000000000 : Int) ≤ 0) := by decide
  unfold Duration.Round
  simp only [Second, hm, if_false]
  by_cases hd : d < 0
  · simp only [hd, if_true]
    rw [tmod_of_neg d 1000000000 hd (by decide)]
    have hr0 : 0 ≤ (-d) % 1000000000 := Int.emod_nonneg _ (by decide)
    have hr1 : (-d) % 1000000000 < 1000000000 := Int.emod_lt_of_pos _ (by decide)
    simp only [neg_neg]
    rw [lessThanHalf_second _ hr0 hr1]
    by_cases hh : 2 * ((-d) % 1000000000) < 1000000000
    · simp only [hh, decide_True, if_true]
      rw [wrap64_of_range _ (by omega) (by omega)]
      refine ⟨-((-d) / 1000000000), ?_, ?_, ?_⟩ <;> omega
    · simp only [hh, decide_False, if_false, Bool.false_eq_true]
      rw [wrap64_of_range _ (by omega) (by omega)]
      have hlt : d - 1000000000 + (-d) % 1000000000 < d := by omega
      simp only [hlt, if_true]
      refine ⟨-((-d) / 1000000000) - 1, ?_, ?_, ?_⟩ <;> omega
  · simp only [hd, if_false]
    rw [Int.tmod_eq_emod (by omega) (by decide)]
    have hr0 : 0 ≤ d % 1000000000 := Int.emod_nonneg _ (by decide)
    have hr1 : d % 1000000000 < 1000000000 := Int.emod_lt_of_pos _ (by decide)
    rw [lessThanHalf_second _ hr0 hr1]
    by_cases hh : 2 * (d % 1000000000) < 1000000000
    · simp only [hh, decide_True, if_true]
      rw [wrap64_of_range _ (by omega) (by omega)]
      refine ⟨d / 1000000000, ?_, ?_, ?_⟩ <;> omega
    · simp only [hh, decide_False, if_false, Bool.false_eq_true]
      rw [wrap64_of_range _ (by omega) (by omega)]
      have hlt : d + 1000000000 - d % 1000000000 > d := by omega
      simp only [hlt, if_true]
      refine ⟨d / 1000000000 + 1, ?_, ?_, ?_⟩ <;> omega

/-- Above the last duration whose nearest whole second fits, rounding to the
second gives the largest `Duration`. -/
theorem Round_second_high (d : Int) (h1 : 9223372036499999999 < d) (h2 : d ≤ 2 ^ 63 - 1) :
    Duration.Round d Second = 9223372036854775807 := by
  have hm : ¬ ((1000000000 : Int) ≤ 0) := by decide
  have hd : ¬ (d < 0) := by omega
  unfold Duration.Round
  simp only [Second, hm, if_false, hd]
  rw [Int.tmod_eq_emod (by omega) (by decide)]
  have hr0 : 0 ≤ d % 1000000000 := Int.emod_nonneg _ (by decide)
  have hr1 : d % 1000000000 < 1000000000 := Int.emod_lt_of_pos _ (by decide)
  rw [lessThanHalf_second _ hr0 hr1]
  have hh : ¬ (2 * (d % 1000000000) < 1000000000) := by omega
  have hx : d + 1000000000 - d % 1000000000 = 9223372037000000000 := by omega
  have hw : wrap64 9223372037000000000 = -9223372036709551616 := by decide
  have hlt : ¬ (-9223372036709551616 > d) := by omega
  simp only [hh, decide_False, if_false, Bool.false_eq_true, hx, hw, hlt]
  rfl

/-- Below the first duration whose nearest whole second fits, rounding to the
second gives the smallest `Duration`. -/
theorem Round_second_low (d : Int) (h1 : -(2 ^ 63) ≤ d) (h2 : d < -9223372036499999999) :
    Duration.Round d Second = -9223372036854775808 := by
  have hm : ¬ ((1000000000 : Int) ≤ 0) := by decide
  have hd : d < 0 := by omega
  unfold Duration.Round
  simp only [Second, hm, if_false, hd, if_true]
  rw [tmod_of_neg d 1000000000 hd (by decide)]
  have hr0 : 0 ≤ (-d) % 1000000000 := Int.emod_nonneg _ (by decide)
  have hr1 : (-d) % 1000000000 < 1000000000 := Int.emod_lt_of_pos _ (by decide)
  simp only [neg_neg]
  rw [lessThanHalf_second _ hr0 hr1]
  have hh : ¬ (2 * ((-d) % 1000000000) < 1000000000) := by omega
  have hx : d - 1000000000 + (-d) % 1000000000 = -9223372037000000000 := by omega
  have hw : wrap64 (-9223372037000000000) = 9223372036709551616 := by decide
  have hlt : ¬ (9223372036709551616 < d) := by omega
  simp only [hh, decide_False, if_false, Bool.false_eq_true, hx, hw, hlt]
  rfl

theorem wrap64_range (x : Int) : -(2 ^ 63) ≤ wrap64 x ∧ wrap64 x ≤ 2 ^ 63 - 1 := by
  unfold wrap64
  omega

/-- What `strconv.ParseInt` returns without an error is an `int64`. -/
theorem ParseInt_ok_range (s : GoString) (v : Int) (h : ParseInt s = (v, none)) :
    -(2 ^ 63) ≤ v ∧ v ≤ 2 ^ 63 - 1 := by
  cases s with
  | nil => simp [ParseInt] at h
  | cons c cs =>
    rcases hu : ParseUint (unsignedPart (c :: cs)) with ⟨un, err⟩
    simp only [ParseInt, hu] at h
    split at h
    · rename_i he
      simp [he] at h
    · split at h
      · simp at h
      · split at h
        · simp at h
        · simp only [Prod.mk.injEq, and_true] at h
          rw [← h]
          split
          · exact wrap64_range _
          · exact wrap64_range _

/-! ### `strconv.ParseInt` on headers that do not parse -/

theorem parseUintLoop_error_value (s : GoString) (n : Nat) :
    ((parseUintLoop s n).2 = some NumError.ErrSyntax → (parseUintLoop s n).1 = 0) ∧
      ((parseUintLoop s n).2 = some NumError.ErrRange → (parseUintLoop s n).1 = maxUint64) := by
  induction s generalizing n with
  | nil => simp [parseUintLoop]
  | cons c cs ih =>
    unfold parseUintLoop
    by_cases hc : isDigit c = true
    · rw [if_pos hc]
      by_cases hn : n ≥ maxUint64 / 10 + 1
      · rw [if_pos hn]
        simp
      · rw [if_neg hn]
        simp only []
        split
        · simp
        · exact ih _
    · rw [if_neg hc]
      simp

theorem ParseUint_error_value (s : GoString) :
    ((ParseUint s).2 = some NumError.ErrSyntax → (ParseUint s).1 = 0) ∧
      ((ParseUint s).2 = some NumError.ErrRange → (ParseUint s).1 = maxUint64) := by
  unfold ParseUint
  by_cases hs : s = []
  · simp [hs]
  · simp only [hs, if_false]
    exact parseUintLoop_error_value s 0

/-- The value `strconv.ParseInt` returns with an error: zero with a syntax
error, the nearest `int64` with a range error. -/
theorem ParseInt_error_value (s : GoString) :
    ((ParseInt s).2 = some NumError.ErrSyntax → (ParseInt s).1 = 0) ∧
      ((ParseInt s).2 = some NumError.ErrRange →
        (ParseInt s).1 = maxInt64 ∨ (ParseInt s).1 = minInt64) := by
  cases s with
  | nil => simp [ParseInt]
  | cons c cs =>
    rcases hu : ParseUint (unsignedPart (c :: cs)) with ⟨un, err⟩
    simp only [ParseInt, hu]
    by_cases h1 : err = some NumError.ErrSyntax
    · simp [h1]
    · simp only [h1, if_false]
      split
      · simp
      · split
        · simp
        · simp

/-- A header whose digits are missing is a syntax error. -/
theorem ParseInt_no_digits (s : GoString) (h : unsignedPart s = []) :
    ParseInt s = (0, some NumError.ErrSyntax) := by
  cases s with
  | nil => rfl
  | cons c cs => simp [ParseInt, h, ParseUint]

theorem digitVal_le_nine (c : Char) (h : isDigit c = true) : digitVal c ≤ 9 := by
  have h2 : '0'.toNat ≤ c.toNat ∧ c.toNat ≤ '9'.toNat := by simpa [isDigit] using h
  have hd9 : '9'.toNat = 57 := by decide
  have hd0 : '0'.toNat = 48 := by decide
  unfold digitVal
  omega

theorem parseUintLoop_nondigit (p q : GoString) (c : Char) (n k : Nat) (hn : n < 10 ^ k)
    (hk : k + p.length ≤ 18) (hc : ¬ (isDigit c = true)) :
    parseUintLoop (p ++ c :: q) n = (0, some NumError.ErrSyntax) := by
  induction p generalizing n k with
  | nil =>
    simp only [List.nil_append]
    unfold parseUintLoop
    rw [if_neg hc]
  | cons d p ih =>
    simp only [List.cons_append]
    unfold parseUintLoop
    by_cases hd : isDigit d = true
    · rw [if_pos hd]
      simp only [List.length_cons] at hk
      have hk17 : k ≤ 17 := by omega
      have hpow : 10 ^ k ≤ 10 ^ 17 := Nat.pow_le_pow_right (by decide) hk17
      have hpow2 : 10 ^ (k + 1) = 10 ^ k * 10 := Nat.pow_succ ..
      have hdv : digitVal d ≤ 9 := digitVal_le_nine d hd
      have hmax : maxUint64 = 18446744073709551615 := by decide
      have hcut : ¬ (n ≥ maxUint64 / 10 + 1) := by rw [hmax]; omega
      rw [if_neg hcut]
      simp only []
      have hmod : (n * 10 + digitVal d) % 2 ^ 64 = n * 10 + digitVal d := by
        apply Nat.mod_eq_of_lt
        omega
      rw [hmod]
      have hno : ¬ (n * 10 + digitVal d < n * 10 ∨ n * 10 + digitVal d > maxUint64) := by
        rw [hmax]; omega
      rw [if_neg hno]
      exact ih (n * 10 + digitVal d) (k + 1) (by omega) (by omega)
    · rw [if_neg hd]

/-- A header with a character that is not a digit among the first nineteen
after the sign is a syntax error. -/
theorem ParseInt_nondigit (s p q : GoString) (c : Char) (h : unsignedPart s = p ++ c :: q)
    (hp : p.length ≤ 18) (hc : ¬ (isDigit c = true)) :
    ParseInt s = (0, some NumError.ErrSyntax) := by
  cases s with
  | nil => rfl
  | cons a cs =>
    have hl := parseUintLoop_nondigit p q c 0 0 (by decide) (by omega) hc
    simp [ParseInt, h, ParseUint, hl]

theorem foldl_digits_ge (ds : GoString) (acc : Nat) :
    acc ≤ ds.foldl (fun n c => n * 10 + digitVal c) acc := by
  induction ds generalizing acc with
  | nil => exact Nat.le_refl _
  | cons c cs ih =>
    simp only [List.foldl_cons]
    exact Nat.le_trans (by omega) (ih _)

/-- On a string of digits the loop of `ParseUint` returns the number the
digits denote when it fits a `uint64`, and the largest `uint64` with a range
error when it does not. -/
theorem parseUintLoop_digits (ds : GoString) (acc : Nat)
    (hds : ∀ c ∈ ds, isDigit c = true) (hacc : acc ≤ 18446744073709551615) :
    parseUintLoop ds acc =
      if ds.foldl (fun n c => n * 10 + digitVal c) acc ≤ 18446744073709551615
      then (ds.foldl (fun n c => n * 10 + digitVal c) acc, none)
      else (maxUint64, some NumError.ErrRange) := by
  have hmax : maxUint64 = 18446744073709551615 := by decide
  induction ds generalizing acc with
  | nil =>
    simp only [List.foldl_nil, if_pos hacc]
    rfl
  | cons c cs ih =>
    have hc : isDigit c = true := hds c (List.mem_cons_self _ _)
    have hcs : ∀ x ∈ cs, isDigit x = true := fun x hx => hds x (List.mem_cons_of_mem _ hx)
    have hd9 : digitVal c ≤ 9 := digitVal_le_nine c hc
    have hge := foldl_digits_ge cs (acc * 10 + digitVal c)
    simp only [List.foldl_cons]
    conv_lhs => unfold parseUintLoop
    rw [if_pos hc]
    by_cases hcut : acc ≥ maxUint64 / 10 + 1
    · rw [if_pos hcut]
      rw [hmax] at hcut
      have hbig : ¬ (cs.foldl (fun n c => n * 10 + digitVal c) (acc * 10 + digitVal c)
          ≤ 18446744073709551615) := by omega
      rw [if_neg hbig]
    · rw [if_neg hcut]
      rw [hmax] at hcut
      simp only []
      by_cases hfit : acc * 10 + digitVal c ≤ 18446744073709551615
      · have hmod : (acc * 10 + digitVal c) % 2 ^ 64 = acc * 10 + digitVal c := by
          apply Nat.mod_eq_of_lt
          omega
        rw [hmod]
        have hno : ¬ (acc * 10 + digitVal c < acc * 10 ∨ acc * 10 + digitVal c > maxUint64) := by
          rw [hmax]; omega
        rw [if_neg hno]
        exact ih _ hcs hfit
      · have hwrap : (acc * 10 + digitVal c) % 2 ^ 64 < acc * 10 ∨
            (acc * 10 + digitVal c) % 2 ^ 64 > maxUint64 := by
          left
          omega
        rw [if_pos hwrap]
        have hbig : ¬ (cs.foldl (fun n c => n * 10 + digitVal c) (acc * 10 + digitVal c)
            ≤ 18446744073709551615) := by omega
        rw [if_neg hbig]

theorem ParseUint_digits (ds : GoString) (hne : ds ≠ []) (hds : ∀ c ∈ ds, isDigit c = true) :
    ParseUint ds =
      if decimalValue ds ≤ 18446744073709551615 then (decimalValue ds, none)
      else (maxUint64, some NumError.ErrRange) := by
  unfold ParseUint decimalValue
  rw [if_neg hne]
  exact parseUintLoop_digits ds 0 hds (by omega)

/-- The value `strconv.ParseInt` returns for a numeral without a minus sign:
the number it denotes when that is at most the largest `int64`, and the
largest `int64` with a range error when it is more. -/
theorem ParseInt_numeral (s ds : GoString) (hne : ds ≠ [])
    (hds : ∀ c ∈ ds, isDigit c = true) (hs : s = ds ∨ s = '+' :: ds) :
    ParseInt s =
      if decimalValue ds ≤ 9223372036854775807 then ((decimalValue ds : Int), none)
      else (maxInt64, some NumError.ErrRange) := by
  have hu := ParseUint_digits ds hne hds
  have hmax : maxUint64 = 18446744073709551615 := by decide
  have hsu : ∃ c cs, s = c :: cs ∧ unsignedPart (c :: cs) = ds ∧ c ≠ '-' := by
    rcases hs with hs | hs
    · obtain ⟨c, cs, hcs⟩ := List.exists_cons_of_ne_nil hne
      have hc : isDigit c = true := hds c (by rw [hcs]; exact List.mem_cons_self _ _)
      have hplus : c ≠ '+' := by
        intro e; rw [e] at hc; exact absurd hc (by decide)
      have hminus : c ≠ '-' := by
        intro e; rw [e] at hc; exact absurd hc (by decide)
      refine ⟨c, cs, by rw [hs, hcs], ?_, hminus⟩
      simp [unsignedPart, hplus, hminus, hcs]
    · exact ⟨'+', ds, hs, by simp [unsignedPart], by decide⟩
  obtain ⟨c, cs, hcs, hun, hminus⟩ := hsu
  rw [hcs]
  simp only [ParseInt, hun, hu]
  by_cases h64 : decimalValue ds ≤ 18446744073709551615
  · rw [if_pos h64]
    by_cases h63 : decimalValue ds ≤ 9223372036854775807
    · rw [if_pos h63]
      have hw : wrap64 (decimalValue ds : Int) = (decimalValue ds : Int) :=
        wrap64_of_range _ (by omega) (by omega)
      have hlt : ¬ (decimalValue ds ≥ 2 ^ 63) := by omega
      simp [hminus, hlt, hw]
      omega
    · rw [if_neg h63]
      have hge : decimalValue ds ≥ 2 ^ 63 := by omega
      simp [hminus, hge]
      omega
  · rw [if_neg h64]
    have h63 : ¬ (decimalValue ds ≤ 9223372036854775807) := by omega
    rw [if_neg h63]
    simp [hminus, hmax]

/-- The value `strconv.ParseInt` returns for a numeral with a minus sign: the
number it denotes when that is at least the smallest `int64`, and the smallest
`int64` with a range error when it is less. -/
theorem ParseInt_negative_numeral (ds : GoString) (hne : ds ≠ [])
    (hds : ∀ c ∈ ds, isDigit c = true) :
    ParseInt ('-' :: ds) =
      if decimalValue ds ≤ 9223372036854775808 then (-(decimalValue ds : Int), none)
      else (minInt64, some NumError.ErrRange) := by
  have hu := ParseUint_digits ds hne hds
  have hmax : maxUint64 = 18446744073709551615 := by decide
  have hun : unsignedPart ('-' :: ds) = ds := by simp [unsignedPart]
  simp only [ParseInt, hun, hu]
  by_cases h64 : decimalValue ds ≤ 18446744073709551615
  · rw [if_pos h64]
    by_cases h63 : decimalValue ds ≤ 9223372036854775808
    · rw [if_pos h63]
      have hw : wrap64 (-wrap64 (decimalValue ds : Int)) = -(decimalValue ds : Int) := by
        unfold wrap64
        omega
      have hlt : ¬ (decimalValue ds > 2 ^ 63) := by omega
      simp [hlt, hw]
      omega
    · rw [if_neg h63]
      have hge : decimalValue ds > 2 ^ 63 := by omega
      simp [hge]
      omega
  · rw [if_neg h64]
    have h63 : ¬ (decimalValue ds ≤ 9223372036854775808) := by omega
    rw [if_neg h63]
    simp [hmax]

/-- C7 (as amended): `rateLimitInfo` never fails and builds its summary from
the values `strconv.ParseInt` returns for the three headers, errors dropped: a
header that is missing, empty, without digits or with a character that is not a
digit among the first nineteen after the sign gives zero (a syntax error always
does); a header that is a numeral (digits, after an optional sign) gives the
number it denotes when that is an `int64`, and otherwise, with a range error,
the nearest end of the range of `int64` and not zero: the largest `int64` for
a numeral above the range, the smallest for one below. -/
theorem rateLimitInfo_header_errors (render : Int → GoString) (now : Int) (h : Header) :
    rateLimitInfo render now h =
        "rate limit: ".toList ++ formatInt (ParseInt (h.Get "X-Rate-Limit-Remaining".toList)).1
          ++ "/".toList ++ formatInt (ParseInt (h.Get "X-Rate-Limit-Limit".toList)).1
          ++ " api calls remaining for the next ".toList
          ++ render (Duration.Round
              (Time.Sub (timeUnix (ParseInt (h.Get "X-Rate-Limit-Reset".toList)).1) now) Second) ∧
      (∀ key, h key = [] ∨ h.Get key = [] ∨ unsignedPart (h.Get key) = [] →
        ParseInt (h.Get key) = (0, some NumError.ErrSyntax)) ∧
      (∀ key p c q, unsignedPart (h.Get key) = p ++ c :: q → p.length ≤ 18 →
        ¬ (isDigit c = true) →
        ParseInt (h.Get key) = (0, some NumError.ErrSyntax)) ∧
      (∀ key, (ParseInt (h.Get key)).2 = some NumError.ErrSyntax →
        (ParseInt (h.Get key)).1 = 0) ∧
      (∀ key, (ParseInt (h.Get key)).2 = some NumError.ErrRange →
        (ParseInt (h.Get key)).1 = maxInt64 ∨ (ParseInt (h.Get key)).1 = minInt64) ∧
      (∀ key ds, ds ≠ [] → (∀ c ∈ ds, isDigit c = true) →
        (h.Get key = ds ∨ h.Get key = '+' :: ds) →
        ParseInt (h.Get key) =
          if decimalValue ds ≤ 9223372036854775807 then ((decimalValue ds : Int), none)
          else (9223372036854775807, some NumError.ErrRange)) ∧
      (∀ key ds, ds ≠ [] → (∀ c ∈ ds, isDigit c = true) → h.Get key = '-' :: ds →
        ParseInt (h.Get key) =
          if decimalValue ds ≤ 9223372036854775808 then (-(decimalValue ds : Int), none)
          else (-9223372036854775808, some NumError.ErrRange)) ∧
      ((ParseInt (h.Get "X-Rate-Limit-Remaining".toList)).2 = some NumError.ErrSyntax →
        (ParseInt (h.Get "X-Rate-Limit-Limit".toList)).2 = some NumError.ErrSyntax →
        (ParseInt (h.Get "X-Rate-Limit-Reset".toList)).2 = some NumError.ErrSyntax →
        rateLimitInfo render now h =
          "rate limit: 0/0 api calls remaining for the next ".toList
            ++ render (Duration.Round (Time.Sub 0 now) Second)) := by
  refine ⟨rfl, ?_, ?_, ?_, ?_, ?_, ?_, ?_⟩
  · intro key hk
    rcases hk with hk | hk | hk
    · simp [Header.Get, hk, ParseInt]
    · simp [hk, ParseInt]
    · exact ParseInt_no_digits _ hk
  · intro key p c q hu hp hc
    exact ParseInt_nondigit _ p q c hu hp hc
  · intro key
    exact (ParseInt_error_value _).1
  · intro key
    exact (ParseInt_error_value _).2
  · intro key ds hne hds hs
    exact ParseInt_numeral _ ds hne hds hs
  · intro key ds hne hds hs
    rw [hs]
    exact ParseInt_negative_numeral ds hne hds
  · intro hrem hlim hres
    have h0 : formatInt 0 = "0".toList := by decide
    have hu : timeUnix 0 = 0 := by decide
    simp only [rateLimitInfo, resetDuration, timeUntil, (ParseInt_error_value _).1 hrem,
      (ParseInt_error_value _).1 hlim, (ParseInt_error_value _).1 hres, h0, hu]
    rfl

theorem rateLimitInfo_header_errors_witness :
    rateLimitInfo formatInt 0 (rateHeaders "4x".toList "".toList "-".toList)
      = "rate limit: 0/0 api calls remaining for the next 0".toList ∧
    ParseInt ((rateHeaders "4x".toList "".toList "-".toList).Get "X-Rate-Limit-Remaining".toList)
      = (0, some NumError.ErrSyntax) ∧
    ParseInt ((rateHeaders "4x".toList "".toList "-".toList).Get "X-Rate-Limit-Limit".toList)
      = (0, some NumError.ErrSyntax) ∧
    ParseInt ((rateHeaders "4x".toList "".toList "-".toList).Get "X-Rate-Limit-Reset".toList)
      = (0, some NumError.ErrSyntax) ∧
    ParseInt ((rateHeaders "9223372036854775808".toList "-9223372036854775809".toList
        "0".toList).Get "X-Rate-Limit-Remaining".toList)
      = (9223372036854775807, some NumError.ErrRange) ∧
    ParseInt ((rateHeaders "9223372036854775808".toList "-9223372036854775809".toList
        "0".toList).Get "X-Rate-Limit-Limit".toList)
      = (-9223372036854775808, some NumError.ErrRange) :=
  have h := rateLimitInfo_header_errors formatInt 0 (rateHeaders "4x".toList "".toList "-".toList)
  have g := rateLimitInfo_header_errors formatInt 0
    (rateHeaders "9223372036854775808".toList "-9223372036854775809".toList "0".toList)
  ⟨h.1.trans (by decide),
    h.2.2.1 "X-Rate-Limit-Remaining".toList ['4'] 'x' [] (by decide) (by decide) (by decide),
    h.2.1 "X-Rate-Limit-Limit".toList (Or.inr (Or.inl (by decide))),
    h.2.1 "X-Rate-Limit-Reset".toList (Or.inr (Or.inr (by decide))),
    (g.2.2.2.2.2.1 "X-Rate-Limit-Remaining".toList "9223372036854775808".toList
      (by decide) (by decide) (Or.inl (by decide))).trans (by decide),
    (g.2.2.2.2.2.2.1 "X-Rate-Limit-Limit".toList "9223372036854775809".toList
      (by decide) (by decide) (by decide)).trans (by decide)⟩

/-- C7 (counterexample): the header `X-Rate-Limit-Remaining` with the value
9223372036854775808, one more than the largest `int64`, fails to parse (range
error), and the summary shows 9223372036854775807 remaining calls, not 0. -/
theorem rateLimitInfo_out_of_range_not_zero :
    (ParseInt ((rateHeaders "9223372036854775808".toList "100".toList "0".toList).Get
        "X-Rate-Limit-Remaining".toList)).2 = some NumError.ErrRange ∧
      (ParseInt ((rateHeaders "9223372036854775808".toList "100".toList "0".toList).Get
        "X-Rate-Limit-Remaining".toList)).1 ≠ 0 ∧
      rateLimitInfo formatInt 0 (rateHeaders "9223372036854775808".toList "100".toList "0".toList)
        = "rate limit: 9223372036854775807/100 api calls remaining for the next 0".toList := by
  decide

/-! ### `strconv.ParseInt` on the decimal form of an `int64` -/

theorem toDigitsCore_acc (fuel n : Nat) (ds : List Char) :
    Nat.toDigitsCore 10 fuel n ds = Nat.toDigitsCore 10 fuel n [] ++ ds := by
  induction fuel generalizing n ds with
  | zero => simp [Nat.toDigitsCore]
  | succ fuel ih =>
    simp only [Nat.toDigitsCore]
    split
    · simp
    · rw [ih, ih (n / 10) [Nat.digitChar (n % 10)]]
      simp

theorem toDigitsCore_fuel (n : Nat) : ∀ (f1 f2 : Nat), n < f1 → n < f2 →
    Nat.toDigitsCore 10 f1 n [] = Nat.toDigitsCore 10 f2 n [] := by
  induction n using Nat.strongRecOn with
  | _ n ih =>
    intro f1 f2 h1 h2
    obtain ⟨g1, rfl⟩ : ∃ g, f1 = g + 1 := ⟨f1 - 1, by omega⟩
    obtain ⟨g2, rfl⟩ : ∃ g, f2 = g + 1 := ⟨f2 - 1, by omega⟩
    simp only [Nat.toDigitsCore]
    by_cases h0 : n / 10 = 0
    · simp [h0]
    · simp only [h0, if_false]
      rw [toDigitsCore_acc g1, toDigitsCore_acc g2]
      rw [ih (n / 10) (by omega) g1 g2 (by omega) (by omega)]

theorem toDigits_small (n : Nat) (h : n < 10) : Nat.toDigits 10 n = [Nat.digitChar n] := by
  have h0 : n / 10 = 0 := by omega
  have h1 : n % 10 = n := by omega
  simp [Nat.toDigits, Nat.toDigitsCore, h0, h1]

theorem toDigits_step (n : Nat) (h : 10 ≤ n) :
    Nat.toDigits 10 n = Nat.toDigits 10 (n / 10) ++ [Nat.digitChar (n % 10)] := by
  have h0 : ¬ (n / 10 = 0) := by omega
  have hl : Nat.toDigits 10 n = Nat.toDigitsCore 10 n (n / 10) [Nat.digitChar (n % 10)] := by
    simp only [Nat.toDigits, Nat.toDigitsCore, h0, if_false]
  rw [hl, toDigitsCore_acc]
  rw [toDigitsCore_fuel (n / 10) n (n / 10 + 1) (by omega) (by omega)]
  rfl

theorem digitChar_isDigit (d : Nat) (h : d < 10) :
    isDigit (Nat.digitChar d) = true ∧ digitVal (Nat.digitChar d) = d := by
  interval_cases d <;> decide

theorem parseUintLoop_digit (c : Char) (rest : GoString) (acc d : Nat)
    (hc : isDigit c = true) (hd : digitVal c = d) (hd9 : d ≤ 9)
    (hfit : acc * 10 + d ≤ 18446744073709551615) :
    parseUintLoop (c :: rest) acc = parseUintLoop rest (acc * 10 + d) := by
  have hmax : maxUint64 = 18446744073709551615 := by decide
  conv_lhs => unfold parseUintLoop
  rw [if_pos hc, hd]
  have hcut : ¬ (acc ≥ maxUint64 / 10 + 1) := by rw [hmax]; omega
  rw [if_neg hcut]
  simp only []
  have hmod : (acc * 10 + d) % 2 ^ 64 = acc * 10 + d := by
    apply Nat.mod_eq_of_lt
    omega
  rw [hmod]
  have hno : ¬ (acc * 10 + d < acc * 10 ∨ acc * 10 + d > maxUint64) := by rw [hmax]; omega
  rw [if_neg hno]

/-- The digit loop of `ParseUint` reads the decimal form of `m` as `m`. -/
theorem parseUintLoop_toDigits (m : Nat) : ∀ (acc : Nat) (rest : GoString),
    acc * 10 ^ (Nat.toDigits 10 m).length + m ≤ 18446744073709551615 →
    parseUintLoop (Nat.toDigits 10 m ++ rest) acc
      = parseUintLoop rest (acc * 10 ^ (Nat.toDigits 10 m).length + m) := by
  induction m using Nat.strongRecOn with
  | _ m ih =>
    intro acc rest hfit
    by_cases hm : m < 10
    · rw [toDigits_small m hm] at hfit ⊢
      obtain ⟨hc, hd⟩ := digitChar_isDigit m hm
      simp only [List.length_singleton, pow_one] at hfit ⊢
      exact parseUintLoop_digit _ rest acc m hc hd (by omega) hfit
    · have hstep := toDigits_step m (by omega)
      rw [hstep] at hfit ⊢
      simp only [List.length_append, List.length_singleton] at hfit ⊢
      obtain ⟨hc, hd⟩ := digitChar_isDigit (m % 10) (by omega)
      have hpow : acc * 10 ^ ((Nat.toDigits 10 (m / 10)).length + 1)
          = acc * 10 ^ (Nat.toDigits 10 (m / 10)).length * 10 := by
        rw [Nat.pow_succ, Nat.mul_assoc]
      rw [hpow] at hfit ⊢
      rw [List.append_assoc, List.singleton_append]
      have hfit2 : acc * 10 ^ (Nat.toDigits 10 (m / 10)).length + m / 10
          ≤ 18446744073709551615 := by omega
      rw [ih (m / 10) (by omega) acc _ hfit2]
      have hfit3 : (acc * 10 ^ (Nat.toDigits 10 (m / 10)).length + m / 10) * 10 + m % 10
          ≤ 18446744073709551615 := by omega
      rw [parseUintLoop_digit _ rest _ (m % 10) hc hd (by omega) hfit3]
      congr 1
      omega

theorem toDigits_ne_nil (m : Nat) : Nat.toDigits 10 m ≠ [] := by
  by_cases hm : m < 10
  · rw [toDigits_small m hm]
    simp
  · rw [toDigits_step m (by omega)]
    simp

/-- `ParseUint` reads the decimal form of a `uint64` as that number. -/
theorem ParseUint_toDigits (m : Nat) (h : m ≤ 18446744073709551615) :
    ParseUint (Nat.toDigits 10 m) = (m, none) := by
  unfold ParseUint
  rw [if_neg (toDigits_ne_nil m)]
  have hl := parseUintLoop_toDigits m 0 [] (by omega)
  simp only [List.append_nil, Nat.zero_mul, Nat.zero_add] at hl
  rw [hl]
  rfl

theorem toDigits_head (m : Nat) :
    ∃ c cs, Nat.toDigits 10 m = c :: cs ∧ isDigit c = true := by
  induction m using Nat.strongRecOn with
  | _ m ih =>
    by_cases hm : m < 10
    · exact ⟨_, [], toDigits_small m hm, (digitChar_isDigit m hm).1⟩
    · obtain ⟨c, cs, hcs, hc⟩ := ih (m / 10) (by omega)
      refine ⟨c, cs ++ [Nat.digitChar (m % 10)], ?_, hc⟩
      rw [toDigits_step m (by omega), hcs]
      rfl

/-- `ParseInt` reads the decimal form of every `int64` as that number,
without an error. -/
theorem ParseInt_formatInt (r : Int) (h1 : -(2 ^ 63) ≤ r) (h2 : r ≤ 2 ^ 63 - 1) :
    ParseInt (formatInt r) = (r, none) := by
  obtain ⟨c, cs, hcs, hc⟩ := toDigits_head r.natAbs
  have hplus : c ≠ '+' := by
    intro e; rw [e] at hc; exact absurd hc (by decide)
  have hminus : c ≠ '-' := by
    intro e; rw [e] at hc; exact absurd hc (by decide)
  have hun : ParseUint (c :: cs) = (r.natAbs, none) := by
    rw [← hcs]
    exact ParseUint_toDigits _ (by omega)
  obtain ⟨u, hu0⟩ : ∃ u : Nat, r.natAbs = u := ⟨_, rfl⟩
  rw [hu0] at hun
  by_cases hneg : r < 0
  · have hur : (u : Int) = -r := by
      rw [← hu0]; exact Int.ofNat_natAbs_of_nonpos (le_of_lt hneg)
    have hf : formatInt r = '-' :: c :: cs := by
      simp only [formatInt, if_pos hneg, hcs, List.singleton_append]
    rw [hf]
    have hu : unsignedPart ('-' :: c :: cs) = c :: cs := by
      simp [unsignedPart]
    have hle : ¬ (u > 2 ^ 63) := by omega
    have hw : wrap64 (-wrap64 (u : Int)) = r := by
      unfold wrap64
      omega
    simp only [ParseInt, hu, hun]
    simp [hle, hw]
    omega
  · have hur : (u : Int) = r := by
      rw [← hu0]; exact Int.natAbs_of_nonneg (not_lt.mp hneg)
    have hf : formatInt r = c :: cs := by
      simp only [formatInt, if_neg hneg, hcs, List.nil_append]
    rw [hf]
    have hu : unsignedPart (c :: cs) = c :: cs := by
      simp [unsignedPart, hplus, hminus]
    have hle : ¬ (u ≥ 2 ^ 63) := by omega
    have hw : wrap64 (u : Int) = r := by
      unfold wrap64
      omega
    simp only [ParseInt, hu, hun]
    simp [hle, hw, hminus]
    omega

/-- C6 (as amended): when the three headers parse to `r`, `l` and `s` and
now lies between the epoch and the last instant whose nanoseconds since the
epoch fit an `int64` (the year 2262), `rateLimitInfo` returns exactly
"rate limit: r/l api calls remaining for the next D", where: if the duration
from now to the instant `s` seconds after the epoch is between
-9223372036499999999 and 9223372036499999999 nanoseconds (its nearest whole
second fits a `Duration`, about 292 years either way), `D` renders a whole
number `k` of seconds at most half a second away from it; if it is larger and
`time.Unix` holds `s` without wrapping, `D` renders the largest `Duration`; if
it is smaller, `D` renders the smallest `Duration`. -/
theorem rateLimitInfo_summary (render : Int → GoString) (now : Int) (h : Header) (r l s : Int)
    (hr : ParseInt (h.Get "X-Rate-Limit-Remaining".toList) = (r, none))
    (hl : ParseInt (h.Get "X-Rate-Limit-Limit".toList) = (l, none))
    (hs : ParseInt (h.Get "X-Rate-Limit-Reset".toList) = (s, none))
    (hnow : 0 ≤ now ∧ now ≤ 2 ^ 63 - 1) :
    (-9223372036499999999 ≤ s * 1000000000 - now ∧
        s * 1000000000 - now ≤ 9223372036499999999 →
      ∃ k : Int,
        rateLimitInfo render now h =
            "rate limit: ".toList ++ formatInt r ++ "/".toList ++ formatInt l
              ++ " api calls remaining for the next ".toList ++ render (k * 1000000000) ∧
          -1000000000 ≤ 2 * (s * 1000000000 - now - k * 1000000000) ∧
          2 * (s * 1000000000 - now - k * 1000000000) ≤ 1000000000) ∧
      (9223372036499999999 < s * 1000000000 - now ∧ s ≤ 2 ^ 63 - 1 - 62135596800 →
        rateLimitInfo render now h =
          "rate limit: ".toList ++ formatInt r ++ "/".toList ++ formatInt l
            ++ " api calls remaining for the next ".toList ++ render 9223372036854775807) ∧
      (s * 1000000000 - now < -9223372036499999999 →
        rateLimitInfo render now h =
          "rate limit: ".toList ++ formatInt r ++ "/".toList ++ formatInt l
            ++ " api calls remaining for the next ".toList
            ++ render (-9223372036854775808)) := by
  obtain ⟨hn0, hn1⟩ := hnow
  obtain ⟨hs0, hs1⟩ := ParseInt_ok_range _ s hs
  have hunix : s ≤ 2 ^ 63 - 1 - 62135596800 → timeUnix s = s * 1000000000 := by
    intro hle
    unfold timeUnix unixToInternal Second
    rw [wrap64_of_range _ (by omega) (by omega)]
    omega
  have hinfo : rateLimitInfo render now h =
      "rate limit: ".toList ++ formatInt r ++ "/".toList ++ formatInt l
        ++ " api calls remaining for the next ".toList
        ++ render (Duration.Round (Time.Sub (timeUnix s) now) Second) := by
    simp only [rateLimitInfo, resetDuration, timeUntil, hr, hl, hs]
  refine ⟨?_, ?_, ?_⟩
  · rintro ⟨h1, h2⟩
    obtain ⟨k, hk, hlo, hhi⟩ := Round_second_nearest (s * 1000000000 - now) h1 h2
    have hsub : Time.Sub (timeUnix s) now = s * 1000000000 - now := by
      rw [hunix (by omega)]
      unfold Time.Sub minDuration maxDuration minInt64 maxInt64
      have g1 : ¬ (s * 1000000000 - now < -(2 ^ 63)) := by omega
      have g2 : ¬ (s * 1000000000 - now > 2 ^ 63 - 1) := by omega
      rw [if_neg g1, if_neg g2]
    refine ⟨k, ?_, ?_, ?_⟩
    · rw [hinfo, hsub, hk]
    · rw [← hk]; exact hlo
    · rw [← hk]; exact hhi
  · rintro ⟨h1, h2⟩
    rw [hinfo, hunix h2]
    have hround : Duration.Round (Time.Sub (s * 1000000000) now) Second
        = 9223372036854775807 := by
      unfold Time.Sub minDuration maxDuration minInt64 maxInt64
      have g1 : ¬ (s * 1000000000 - now < -(2 ^ 63)) := by omega
      rw [if_neg g1]
      by_cases g2 : s * 1000000000 - now > 2 ^ 63 - 1
      · rw [if_pos g2]
        exact Round_second_high _ (by decide) (by decide)
      · rw [if_neg g2]
        exact Round_second_high _ h1 (by omega)
    rw [hround]
  · intro h1
    rw [hinfo, hunix (by omega)]
    have hround : Duration.Round (Time.Sub (s * 1000000000) now) Second
        = -9223372036854775808 := by
      unfold Time.Sub minDuration maxDuration minInt64 maxInt64
      by_cases g1 : s * 1000000000 - now < -(2 ^ 63)
      · rw [if_pos g1]
        exact Round_second_low _ (by decide) (by decide)
      · rw [if_neg g1]
        have g2 : ¬ (s * 1000000000 - now > 2 ^ 63 - 1) := by omega
        rw [if_neg g2]
        exact Round_second_low _ (by omega) h1
    rw [hround]

theorem rateLimitInfo_summary_witness :
    rateLimitInfo formatInt (1700000000 * 1000000000)
        (rateHeaders "42".toList "100".toList "1700000090".toList)
      = "rate limit: 42/100 api calls remaining for the next 90000000000".toList := by
  obtain ⟨k, hk, hlo, hhi⟩ := (rateLimitInfo_summary formatInt (1700000000 * 1000000000)
    (rateHeaders "42".toList "100".toList "1700000090".toList) 42 100 1700000090
    (by decide) (by decide) (by decide) (by decide)).1 (by decide)
  have h90 : k = 90 := by omega
  rw [hk, h90]
  decide

/-- C6 (counterexample): with the headers 42, 100 and a reset time of
100000000000 seconds after the epoch (the year 5138), and now at the epoch, the
duration rendered is the largest `Duration`, 9223372036854775807 ns (some 292
years): it is not a whole number of seconds and it is far from the
100000000000 seconds between now and the reset time. -/
theorem rateLimitInfo_far_reset_saturates :
    ParseInt "100000000000".toList = (100000000000, none) ∧
      (∀ render : Int → GoString,
        rateLimitInfo render 0 (rateHeaders "42".toList "100".toList "100000000000".toList)
          = "rate limit: 42/100 api calls remaining for the next ".toList
              ++ render 9223372036854775807) ∧
      ¬ (∃ k : Int, (9223372036854775807 : Int) = k * 1000000000 ∧
          -1000000000 ≤ 2 * (100000000000 * 1000000000 - 0 - k * 1000000000) ∧
          2 * (100000000000 * 1000000000 - 0 - k * 1000000000) ≤ 1000000000) := by
  refine ⟨by decide, ?_, ?_⟩
  · intro render
    have hd : resetDuration 0 (rateHeaders "42".toList "100".toList "100000000000".toList)
        = 9223372036854775807 := by decide
    have h42 : formatInt (ParseInt ((rateHeaders "42".toList "100".toList
        "100000000000".toList).Get "X-Rate-Limit-Remaining".toList)).1 = "42".toList := by decide
    have h100 : formatInt (ParseInt ((rateHeaders "42".toList "100".toList
        "100000000000".toList).Get "X-Rate-Limit-Limit".toList)).1 = "100".toList := by decide
    simp only [rateLimitInfo, hd, h42, h100]
    rfl
  · rintro ⟨k, hk, -, -⟩
    omega

end TrainTracker
